import Mathlib

/-!
Verification development for the MuJoCo-GS-Web interactive simulation viewer.

The embedding follows the JavaScript sources:
* `main.js` (`MuJoCoDemo.render`, the per-frame physics block): simulation
  clock with backlog drop, correlated control noise, drag-force perturbation;
* `src/utils/KeyboardControl.js` (`KeyboardController`): scene-keyed keyboard
  to actuator control mapping;
* `RobotLoader` (`loadPredefinedRobot`, `loadUploadedRobot`): asset
  classification and staging.

Numbers are modelled as exact rationals (`ℚ`); JavaScript's transcendental
library calls (`Math.exp`, `Math.sqrt`) and the random draw `standardNormal`
are collaborator primitives supplied as function parameters, so every
definition stays computable.  JavaScript string truthiness (`!s` is true for
both `null` and `""`) is modelled explicitly where the source relies on it.
-/

/-- A three.js style 3-vector with rational components. -/
structure Vec3 where
  x : ℚ
  y : ℚ
  z : ℚ
deriving DecidableEq

/-- `a.clone().sub(b)` on three.js vectors. -/
def Vec3.sub (a b : Vec3) : Vec3 := ⟨a.x - b.x, a.y - b.y, a.z - b.z⟩

/-- `v.multiplyScalar(s)` on three.js vectors. -/
def Vec3.smul (a : Vec3) (s : ℚ) : Vec3 := ⟨a.x * s, a.y * s, a.z * s⟩

/-- The zero vector, the torque argument of `mj_applyFT` in the source. -/
def Vec3.zero : Vec3 := ⟨0, 0, 0⟩

/-- Modelled from the spec: the coordinate helper `toMujocoPos` lives in
`mujocoUtils.js`, which is not among the sources; §4.3 of the specification
states the drag force and its application point directly in world
coordinates, with no mention of a frame change, so the conversion is taken
to be the identity on world vectors. -/
def toMujocoPos (v : Vec3) : Vec3 := v

/-- The state of `DragStateManager` that `render` reads: the picked body id
and the world-space hit/current points.  `this.dragStateManager.physicsObject`
being `null` is the `none` case. -/
structure DragSession where
  bodyID : ℕ
  currentWorld : Vec3
  worldHit : Vec3
deriving DecidableEq

/-- JavaScript truthiness of `dragged && dragged.bodyID`: a session counts as
active only when present with a nonzero body id. -/
def dragActive : Option DragSession → Bool
  | none => false
  | some d => d.bodyID != 0

/-- One recorded call to the engine primitive `mj_applyFT`. -/
structure FTCall where
  force : Vec3
  torque : Vec3
  point : Vec3
  body : ℕ
deriving DecidableEq

/-- Collaborator primitives used by the per-frame physics block:
the model's fixed timestep `model.opt.timestep` (seconds), the body mass
table `model.body_mass`, the library functions `Math.exp` and `Math.sqrt`,
the random stream `standardNormal` (indexed by draw count), and the engine's
`mj_applyFT`, which folds a force/torque applied at a point into the
generalized applied-force buffer. -/
structure Env where
  timestep : ℚ
  body_mass : ℕ → ℚ
  mexp : ℚ → ℚ
  msqrt : ℚ → ℚ
  normal : ℕ → ℚ
  mj_applyFT : Vec3 → Vec3 → Vec3 → ℕ → List ℚ → List ℚ

/-- The mutable state of the demo that the physics block reads and writes:
`this.mujoco_time` (milliseconds), `this.data.ctrl`, `this.data.qfrc_applied`,
plus a counter of random draws consumed so far (to index the random
stream). -/
structure ThreadState where
  mujoco_time : ℚ
  ctrl : List ℚ
  qfrc_applied : List ℚ
  draws : ℕ
deriving DecidableEq

/-- The correlation factor
`rate = Math.exp(-timestep / Math.max(1e-10, ctrlnoiserate))` of the
control-noise block. -/
def noiseRateOf (env : Env) (noiserate : ℚ) : ℚ :=
  env.mexp (-env.timestep / max (1 / 10 ^ 10) noiserate)

/-- The amplitude `scale = ctrlnoisestd * Math.sqrt(1 - rate*rate)` of the
control-noise block. -/
def noiseScaleOf (env : Env) (noisestd noiserate : ℚ) : ℚ :=
  noisestd * env.msqrt (1 - noiseRateOf env noiserate * noiseRateOf env noiserate)

/-- The control-noise block guarded by `ctrlnoisestd > 0.0`: each control
entry is replaced by `rate * c + scale * standardNormal()` with `rate` and
`scale` as above.  Returns the new control vector and the updated draw
counter. -/
def noiseCtrl (env : Env) (noisestd noiserate : ℚ) (k : ℕ) (ctrl : List ℚ) :
    List ℚ × ℕ :=
  if 0 < noisestd then
    (ctrl.mapIdx (fun i c =>
        noiseRateOf env noiserate * c + noiseScaleOf env noisestd noiserate * env.normal (k + i)),
      k + ctrl.length)
  else (ctrl, k)

/-- Result of the "Clear old perturbations, apply new ones" block: the buffer
right after the zeroing loop, the buffer as handed to `mj_step`, and the
`mj_applyFT` call made, if any. -/
structure PerturbResult where
  qfrcZeroed : List ℚ
  qfrcFinal : List ℚ
  ftCall : Option FTCall
deriving DecidableEq

/-- The perturbation block: zero every entry of `qfrc_applied`; then, if a
drag session with a truthy body id is active, compute
`force = toMujocoPos((currentWorld - worldHit) * (body_mass[id] * 250))`,
`point = toMujocoPos(worldHit)`, and call
`mj_applyFT(force, [0,0,0], point, id, qfrc_applied)`. -/
def perturbStep (env : Env) (drag : Option DragSession) (qfrc : List ℚ) :
    PerturbResult :=
  let zeroed := qfrc.map (fun _ => 0)
  match drag with
  | some d =>
    if d.bodyID != 0 then
      let force := toMujocoPos (Vec3.smul (Vec3.sub d.currentWorld d.worldHit)
        (env.body_mass d.bodyID * 250))
      let point := toMujocoPos d.worldHit
      { qfrcZeroed := zeroed,
        qfrcFinal := env.mj_applyFT force Vec3.zero point d.bodyID zeroed,
        ftCall := some { force := force, torque := Vec3.zero, point := point,
                         body := d.bodyID } }
    else { qfrcZeroed := zeroed, qfrcFinal := zeroed, ftCall := none }
  | none => { qfrcZeroed := zeroed, qfrcFinal := zeroed, ftCall := none }

/-- Observations of one iteration of the catch-up loop, i.e. of one call to
`mj_step`: simulation time on entry, the control vector before and after the
noise block, the draw-counter base used by the noise block, the applied-force
buffer after zeroing and as handed to `mj_step`, and the `mj_applyFT` call. -/
structure IterLog where
  timeBefore : ℚ
  ctrlBefore : List ℚ
  drawBase : ℕ
  ctrlAfterNoise : List ℚ
  qfrcZeroed : List ℚ
  qfrcAtStep : List ℚ
  ftCall : Option FTCall
deriving DecidableEq

/-- The catch-up loop `while (this.mujoco_time < timeMS)` of `render`, with a
fuel bound to make the recursion structural (the theorems assume enough fuel
for the loop to complete, which holds whenever `timestep > 0`).  `mj_step`
reads `ctrl` and `qfrc_applied` and writes only engine-internal buffers, so
the tracked fields pass through it unchanged; each iteration then advances
`mujoco_time` by `timestep * 1000` milliseconds.  Returns the final state and
the per-iteration log, one entry per `mj_step` executed. -/
def runLoop (env : Env) (timeMS noisestd noiserate : ℚ)
    (drag : Option DragSession) : ℕ → ThreadState → ThreadState × List IterLog
  | 0, s => (s, [])
  | fuel + 1, s =>
    if s.mujoco_time < timeMS then
      let nres := noiseCtrl env noisestd noiserate s.draws s.ctrl
      let pres := perturbStep env drag s.qfrc_applied
      let s2 : ThreadState :=
        { mujoco_time := s.mujoco_time + env.timestep * 1000,
          ctrl := nres.1, qfrc_applied := pres.qfrcFinal, draws := nres.2 }
      let rest := runLoop env timeMS noisestd noiserate drag fuel s2
      (rest.1,
        { timeBefore := s.mujoco_time, ctrlBefore := s.ctrl,
          drawBase := s.draws, ctrlAfterNoise := nres.1,
          qfrcZeroed := pres.qfrcZeroed, qfrcAtStep := pres.qfrcFinal,
          ftCall := pres.ftCall } :: rest.2)
    else (s, [])

/-- The physics block of `MuJoCoDemo.render(timeMS)`.  When paused the block
does not step and does not touch `mujoco_time`, `ctrl` or `qfrc_applied`
(the paused branch edits poses and calls `mj_forward` only).  When unpaused:
if `timeMS - mujoco_time > 35.0` the simulation time snaps to `timeMS`
(dropping the backlog), then the catch-up loop runs. -/
def renderFrame (env : Env) (paused : Bool) (timeMS noisestd noiserate : ℚ)
    (drag : Option DragSession) (fuel : ℕ) (s : ThreadState) :
    ThreadState × List IterLog :=
  if paused then (s, [])
  else
    let s1 := if 35 < timeMS - s.mujoco_time then { s with mujoco_time := timeMS } else s
    runLoop env timeMS noisestd noiserate drag fuel s1

/-! ## KeyboardControl.js -/

/-- Assignment `obj[k] = v` on a JavaScript object modelled as an association
list: an existing key is overwritten in place, a new key is appended
(own-property insertion order is preserved). -/
def jsInsert {α : Type} (l : List (String × α)) (k : String) (v : α) :
    List (String × α) :=
  match l with
  | [] => [(k, v)]
  | (k', v') :: rest => if k' = k then (k, v) :: rest else (k', v') :: jsInsert rest k v

/-- One entry of a scene's `controls` table. -/
structure Control where
  key : String
  actuator : String
  value : ℚ
deriving DecidableEq

/-- A scene's keyboard configuration. -/
structure SceneConfig where
  controls : List Control
  description : String
deriving DecidableEq

/-- The `SCENE_CONFIGS` table of `KeyboardControl.js`. -/
def SCENE_CONFIGS : List (String × SceneConfig) :=
  [("xlerobot/scene.xml",
    { controls :=
        [ { key := "KeyW", actuator := "forward", value := 1 },
          { key := "KeyS", actuator := "forward", value := -1 },
          { key := "KeyA", actuator := "turn", value := -1 },
          { key := "KeyD", actuator := "turn", value := 1 } ],
      description := "W/S: Forward/Back | A/D: Turn Left/Right" })]

/-- `getConfig(sceneName)`: `SCENE_CONFIGS[sceneName] || null`. -/
def getConfig (sceneName : String) : Option SceneConfig :=
  SCENE_CONFIGS.lookup sceneName

/-- The slice of the MuJoCo model read by `KeyboardController`: actuator
count, the packed null-terminated name table with per-actuator offsets, and
the actuator limit/range tables.  Bytes are natural numbers; names are ASCII
in practice, so decoding a byte is `Char.ofNat`. -/
structure MjModelK where
  nu : ℕ
  names : List ℕ
  name_actuatoradr : List ℕ
  actuator_ctrllimited : List ℕ
  actuator_ctrlrange : List ℚ
deriving DecidableEq

/-- The slice of the MuJoCo data read and written by `KeyboardController`. -/
structure MjDataK where
  ctrl : List ℚ
deriving DecidableEq

/-- Decoding one actuator name from the packed name table:
`textDecoder.decode(model.names.subarray(adr)).split(nullChar)[0]`, i.e. the
bytes from the offset up to the first NUL. -/
def decodeName (names : List ℕ) (adr : ℕ) : String :=
  String.mk (((names.drop adr).takeWhile (fun b => b != 0)).map (fun b => Char.ofNat b))

/-- The actuator name-to-index map built by `enable`:
`for i in 0..nu: actuatorIndices[name_i] = i`. -/
def buildActuatorIndices (model : MjModelK) : List (String × ℕ) :=
  (List.range model.nu).foldl
    (fun acc i => jsInsert acc (decodeName model.names (model.name_actuatoradr.getD i 0)) i)
    []

/-- The fields of a `KeyboardController` instance.  Global key listeners are
installed exactly when `enabled` is true, so they need no separate field. -/
structure KC where
  enabled : Bool
  config : Option SceneConfig
  model : Option MjModelK
  data : Option MjDataK
  keyStates : List (String × Bool)
  actuatorIndices : List (String × ℕ)
deriving DecidableEq

/-- The state established by the constructor. -/
def KC.init : KC :=
  { enabled := false, config := none, model := none, data := none,
    keyStates := [], actuatorIndices := [] }

/-- `disable()`: returns immediately when not enabled, otherwise removes the
listeners and clears every field. -/
def KC.disable (kc : KC) : KC :=
  if kc.enabled then
    { enabled := false, config := none, model := none, data := none,
      keyStates := [], actuatorIndices := [] }
  else kc

/-- `enable(sceneName, model, data)`: disables any existing control first,
then looks up the scene configuration; without one it returns `false` (on the
already-disabled state).  Otherwise it stores config/model/data, builds the
actuator index map, initializes every configured key state to `false`,
installs the listeners and returns `true`. -/
def KC.enable (kc : KC) (sceneName : String) (model : MjModelK) (data : MjDataK) :
    Bool × KC :=
  let kc1 := kc.disable
  match getConfig sceneName with
  | none => (false, kc1)
  | some config =>
    (true,
      { enabled := true, config := some config, model := some model,
        data := some data,
        keyStates := config.controls.foldl (fun ks c => jsInsert ks c.key false) [],
        actuatorIndices := buildActuatorIndices model })

/-- The first loop of `update()`: group controls by actuator, initializing a
missing entry to `0` and adding `ctrl.value` when the bound key is currently
pressed; controls whose actuator has no resolved index are skipped. -/
def accumValues (ai : List (String × ℕ)) (ks : List (String × Bool)) :
    List Control → List (String × ℚ) → List (String × ℚ)
  | [], acc => acc
  | ctrl :: rest, acc =>
    let acc2 :=
      match ai.lookup ctrl.actuator with
      | none => acc
      | some _ =>
        let acc1 := if (acc.lookup ctrl.actuator).isNone then jsInsert acc ctrl.actuator 0 else acc
        if ks.lookup ctrl.key = some true then
          jsInsert acc1 ctrl.actuator (((acc1.lookup ctrl.actuator).getD 0) + ctrl.value)
        else acc1
    accumValues ai ks rest acc2

/-- The second loop of `update()`: for each grouped actuator value, clamp to
`[actuator_ctrlrange[2i], actuator_ctrlrange[2i+1]]` when
`actuator_ctrllimited[i]` is truthy, and write the result into the control
vector (`Math.max(min, Math.min(max, value))`). -/
def applyValues (ai : List (String × ℕ)) (model : MjModelK) :
    List (String × ℚ) → List ℚ → List ℚ
  | [], c => c
  | ent :: rest, c =>
    let c1 :=
      match ai.lookup ent.1 with
      | none => c
      | some idx =>
        let v :=
          if model.actuator_ctrllimited.getD idx 0 != 0 then
            max (model.actuator_ctrlrange.getD (2 * idx) 0)
              (min (model.actuator_ctrlrange.getD (2 * idx + 1) 0) ent.2)
          else ent.2
        c.set idx v
    applyValues ai model rest c1

/-- `update()`: early return unless enabled with a config and data (the model
is always present in any reachable enabled state; the fallthrough case is
unreachable).  Otherwise group, clamp and write as in the source. -/
def KC.update (kc : KC) : KC :=
  if kc.enabled then
    match kc.config, kc.data, kc.model with
    | some config, some data, some model =>
      let vals := accumValues kc.actuatorIndices kc.keyStates config.controls []
      { kc with data := some { ctrl := applyValues kc.actuatorIndices model vals data.ctrl } }
    | _, _, _ => kc
  else kc

/-- A keyboard event as the handlers see it: the tag name of the event
target and the key code. -/
structure KeyEvent where
  targetTag : String
  code : String
deriving DecidableEq

/-- `_onKeyDown(event)`: ignore when disabled or when the target is a text
input; set the key state and prevent default only for keys present in the
key-state table.  The boolean reports whether `preventDefault` was called. -/
def KC.onKeyDown (kc : KC) (e : KeyEvent) : KC × Bool :=
  if kc.enabled then
    if e.targetTag == "INPUT" || e.targetTag == "TEXTAREA" then (kc, false)
    else if (kc.keyStates.lookup e.code).isSome then
      ({ kc with keyStates := jsInsert kc.keyStates e.code true }, true)
    else (kc, false)
  else (kc, false)

/-- `_onKeyUp(event)`: ignore when disabled; clear the key state and prevent
default for keys present in the key-state table.  Unlike `_onKeyDown`, the
source has no text-input check here. -/
def KC.onKeyUp (kc : KC) (e : KeyEvent) : KC × Bool :=
  if kc.enabled then
    if (kc.keyStates.lookup e.code).isSome then
      ({ kc with keyStates := jsInsert kc.keyStates e.code false }, true)
    else (kc, false)
  else (kc, false)

/-! ## RobotLoader -/

/-- The path separator. -/
def slashStr : String := "/"

/-- The empty string. -/
def emptyStr : String := ""

/-- The `.xml` extension tested with `path.endsWith('.xml')`. -/
def xmlExt : String := ".xml"

/-- The substring tested by `fileName.includes('object')`. -/
def objectStr : String := "object"

/-- The substring tested by `path.includes('meshes/')`. -/
def meshesSlashStr : String := "meshes/"

/-- The substring tested by `path.includes('mesh/')`. -/
def meshSlashStr : String := "mesh/"

/-- The fallback robot name of `loadUploadedRobot`. -/
def userRobotStr : String := "user_robot"

/-- The candidate filename `robot.xml`. -/
def robotXmlName : String := "robot.xml"

/-- The candidate filename `main.xml`. -/
def mainXmlName : String := "main.xml"

/-- The optional objects filename `objects.xml`. -/
def objectsXmlName : String := "objects.xml"

/-- The `MissingDefinition` error message of `loadUploadedRobot`. -/
def errNoRobotXml : String := "No robot XML file found in uploaded folder"

/-- The `AssetNotFound` error message prefix of `loadPredefinedRobot`
(the thrown message is this prefix followed by the robot directory). -/
def errCouldNotFind : String := "Could not find robot XML in "

/-- JavaScript string truthiness on a nullable string: both `null` and the
empty string are falsy. -/
def strFalsy : Option String → Bool
  | none => true
  | some s => s == emptyStr

/-- `sub` occurs somewhere in `s`, i.e. `s.includes(sub)`. -/
def strIncludes (s sub : String) : Bool :=
  decide (sub.toList <:+: s.toList)

/-- `s.toLowerCase()`; uploaded filenames are ASCII, where JavaScript's
`toLowerCase` agrees with `Char.toLower`. -/
def jsToLower (s : String) : String :=
  String.mk (s.toList.map Char.toLower)

/-- `s.endsWith(post)`. -/
def strEndsWith (s post : String) : Bool :=
  decide (post.toList <:+ s.toList)

/-- `path.split('/')` at character level: JavaScript semantics, so the empty
string yields `[""]` and a trailing separator yields a trailing empty
segment. -/
def splitSlash : List Char → List (List Char)
  | [] => [[]]
  | c :: cs =>
    if c = '/' then [] :: splitSlash cs
    else
      match splitSlash cs with
      | s :: rest => (c :: s) :: rest
      | [] => [[c]]

/-- `path.split('/')` as strings. -/
def jsSplitSlash (path : String) : List String :=
  (splitSlash path.toList).map String.mk

/-- `path.split('/').pop()`: the last path segment (`split` never returns an
empty array, so `pop` is total). -/
def lastSegment (path : String) : String :=
  List.getLastD (jsSplitSlash path) emptyStr

/-- An uploaded file: its relative path (`webkitRelativePath || name`), its
`text()` and its `arrayBuffer()` contents. -/
structure UFile where
  path : String
  text : String
  bytes : List ℕ
deriving DecidableEq

/-- The pattern `meshes/` as characters. -/
def meshesPat : List Char := meshesSlashStr.toList

/-- The pattern `meshe/` as characters: the regular expression `meshes?\/`
of the source makes only the final `s` optional, so it matches `meshes/` and
`meshe/` — not `mesh/`. -/
def meshePat : List Char := (jsToLower (String.mk ['M','E','S','H','E','/'])).toList

/-- Length of the regex match of `meshes?\/` at the start of `suffix`, if
any; the quantified `s` is matched greedily, and the two alternatives cannot
match at the same position simultaneously. -/
def meshMatchLen (suffix : List Char) : Option ℕ :=
  if meshesPat.isPrefixOf suffix then some 7
  else if meshePat.isPrefixOf suffix then some 6 else none

/-- The suffix of the path after the last match of `meshes?\/`, or `none`
when the pattern never matches.  Matches of this pattern cannot overlap (its
only `m` is its first character), so scanning every position and keeping the
last match agrees with the left-to-right non-overlapping scan of
`String.prototype.split`. -/
def meshKeyAux : List Char → Option (List Char)
  | [] => none
  | c :: cs =>
    match meshMatchLen (c :: cs) with
    | some n => some ((meshKeyAux cs).getD ((c :: cs).drop n))
    | none => meshKeyAux cs

/-- `path.split(/meshes?\//).pop()`: the portion after the last match, or the
whole path when the regex never matches. -/
def meshKey (path : String) : String :=
  match meshKeyAux path.toList with
  | some suffix => String.mk suffix
  | none => path

/-- The per-file accumulator of the `loadUploadedRobot` loop. -/
structure UploadAcc where
  meshFiles : List (String × List ℕ)
  robotXml : Option String
  objectsXml : Option String
  robotName : Option String
deriving DecidableEq

/-- The accumulator before the loop. -/
def initUploadAcc : UploadAcc :=
  { meshFiles := [], robotXml := none, objectsXml := none, robotName := none }

/-- The robot-name part of one `loadUploadedRobot` iteration: for the first
file with a nested path, while `robotName` is falsy, record the first path
segment. -/
def processNamePart (acc : UploadAcc) (f : UFile) : UploadAcc :=
  let pathParts := jsSplitSlash f.path
  if pathParts.length > 1 && strFalsy acc.robotName then
    { acc with robotName := some (pathParts.headD emptyStr) }
  else acc

/-- The classification part of one `loadUploadedRobot` iteration: an `.xml`
file whose lowercased filename contains `object` becomes the objects
definition; any other `.xml` becomes the robot definition while `robotXml`
is falsy; a non-`.xml` file whose path contains `meshes/` or `mesh/` is
captured as a mesh blob keyed by `path.split(/meshes?\//).pop()`. -/
def processFilePart (acc : UploadAcc) (f : UFile) : UploadAcc :=
  if strEndsWith f.path xmlExt then
    let fileName := jsToLower (lastSegment f.path)
    if strIncludes fileName objectStr then { acc with objectsXml := some f.text }
    else if strFalsy acc.robotXml then { acc with robotXml := some f.text }
    else acc
  else if strIncludes f.path meshesSlashStr || strIncludes f.path meshSlashStr then
    { acc with meshFiles := jsInsert acc.meshFiles (meshKey f.path) f.bytes }
  else acc

/-- One iteration of the `loadUploadedRobot` loop: the robot-name update
followed by the classification chain. -/
def processUploadFile (acc : UploadAcc) (f : UFile) : UploadAcc :=
  processFilePart (processNamePart acc f) f

/-- The full classification loop of `loadUploadedRobot`. -/
def uploadScan (files : List UFile) : UploadAcc :=
  files.foldl processUploadFile initUploadAcc

/-- The successful result of `loadUploadedRobot`. -/
structure UploadResult where
  robotXml : String
  objectsXml : Option String
  meshFiles : List (String × List ℕ)
  robotName : String
deriving DecidableEq

/-- `loadUploadedRobot(files)`: classify every file, then throw the
missing-definition error when `robotXml` is still falsy, defaulting the robot
name to `user_robot` when no nested path supplied one. -/
def loadUploadedRobot (files : List UFile) : Except String UploadResult :=
  let acc := uploadScan files
  if strFalsy acc.robotXml then Except.error errNoRobotXml
  else
    Except.ok
      { robotXml := acc.robotXml.getD emptyStr,
        objectsXml := acc.objectsXml,
        meshFiles := acc.meshFiles,
        robotName := if strFalsy acc.robotName then userRobotStr else acc.robotName.getD emptyStr }

/-- The successful result of `loadPredefinedRobot`. -/
structure PredefResult where
  robotXml : String
  objectsXml : Option String
  robotDir : String
deriving DecidableEq

/-- A fetch of a URL, as `loadPredefinedRobot` observes it: `some text` when
the fetch resolved with `response.ok`, `none` when it threw or was not ok
(both continue to the next candidate in the source). -/
def loadPredefinedRobot (fetch : String → Option String) (robotName basePath : String) :
    Except String PredefResult :=
  let robotDir := basePath ++ slashStr ++ robotName
  let xmlNames := [robotName ++ xmlExt, robotXmlName, mainXmlName]
  let robotXml := xmlNames.foldl
    (fun found name =>
      match found with
      | some t => some t
      | none => fetch (robotDir ++ slashStr ++ name))
    none
  if strFalsy robotXml then Except.error (errCouldNotFind ++ robotDir)
  else
    Except.ok
      { robotXml := robotXml.getD emptyStr,
        objectsXml := fetch (robotDir ++ slashStr ++ objectsXmlName),
        robotDir := robotDir }

/-! ## Concrete artifacts used by counterexamples and witnesses -/

/-- A minimal MuJoCo model slice with no actuators. -/
def mdl0 : MjModelK :=
  { nu := 0, names := [], name_actuatoradr := [], actuator_ctrllimited := [],
    actuator_ctrlrange := [] }

/-- A data slice with an empty control vector. -/
def dat0 : MjDataK := { ctrl := [] }

/-- The configured scene name. -/
def xleScene : String := "xlerobot/scene.xml"

/-- A scene name with no entry in `SCENE_CONFIGS`. -/
def unknownScene : String := "nope.xml"

/-- A controller on which the xlerobot mapping has been enabled. -/
def kcXle : KC := (KC.init.enable xleScene mdl0 dat0).2

/-- Tag name of a text-input event target. -/
def tagInput : String := "INPUT"

/-- Tag name of a non-text-input event target. -/
def tagBody : String := "BODY"

/-- The key code bound to the `forward` actuator (positive direction). -/
def codeKeyW : String := "KeyW"

/-- A key code not bound by the xlerobot configuration. -/
def codeKeyZ : String := "KeyZ"

/-- A simple environment for concrete runs: timestep 2 ms, all masses 2,
stub library primitives, and a force application that returns the buffer
unchanged. -/
def env0 : Env :=
  { timestep := 1/500, body_mass := fun _ => 2, mexp := fun _ => 0,
    msqrt := fun _ => 0, normal := fun _ => 0,
    mj_applyFT := fun _ _ _ _ q => q }

/-- A start state at simulation time 0 with empty buffers. -/
def st0 : ThreadState := { mujoco_time := 0, ctrl := [], qfrc_applied := [], draws := 0 }

/-- An environment with nontrivial stubbed noise primitives. -/
def envN : Env :=
  { env0 with mexp := fun _ => 1/2, msqrt := fun _ => 3, normal := fun _ => 5 }

/-- A start state with one control entry. -/
def stN : ThreadState := { mujoco_time := 0, ctrl := [4], qfrc_applied := [], draws := 0 }

/-- A default log literal for `getLastD`. -/
def logDefault : IterLog :=
  { timeBefore := 0, ctrlBefore := [], drawBase := 0, ctrlAfterNoise := [],
    qfrcZeroed := [], qfrcAtStep := [], ftCall := none }

/-- The unique iteration log of the one-step noisy run. -/
def logN : IterLog := (renderFrame envN false 1 1 1 none 1 stN).2.getLastD logDefault

/-- The drag session of the claim's worked example: body 1, hit at the
origin, current point (0.1, 0, 0). -/
def dragD : DragSession :=
  { bodyID := 1, currentWorld := { x := 1/10, y := 0, z := 0 },
    worldHit := { x := 0, y := 0, z := 0 } }

/-- A start state with a stale three-entry applied-force buffer. -/
def stD : ThreadState := { mujoco_time := 0, ctrl := [], qfrc_applied := [9, 8, 7], draws := 0 }

/-- The unique iteration log of the one-step dragged run. -/
def logD : IterLog := (renderFrame env0 false 1 0 0 (some dragD) 1 stD).2.getLastD logDefault

/-- The unique iteration log of the one-step run without a drag session. -/
def logQ : IterLog := (renderFrame env0 false 1 0 0 none 1 stD).2.getLastD logDefault

/-- Spec-side description used for C4: the sum of the signed step values of
all currently-pressed keys bound to actuator `a` in the configuration. -/
def specPressedSum (ks : List (String × Bool)) (a : String) : List Control → ℚ
  | [] => 0
  | c :: rest =>
    (if c.actuator = a ∧ ks.lookup c.key = some true then c.value else 0) +
      specPressedSum ks a rest

/-- The key code bound to the `forward` actuator (negative direction). -/
def codeKeyS : String := "KeyS"

/-- The `forward` actuator name. -/
def actForward : String := "forward"

/-- The xlerobot scene configuration, as stored in `SCENE_CONFIGS`. -/
def cfgXle : SceneConfig :=
  { controls :=
      [ { key := "KeyW", actuator := "forward", value := 1 },
        { key := "KeyS", actuator := "forward", value := -1 },
        { key := "KeyA", actuator := "turn", value := -1 },
        { key := "KeyD", actuator := "turn", value := 1 } ],
    description := "W/S: Forward/Back | A/D: Turn Left/Right" }

/-- A model slice with two actuators, `forward` (limited to [-1/2, 1/2]) and
`turn` (unlimited), with the packed name table `forward\0turn\0`. -/
def mdlW : MjModelK :=
  { nu := 2,
    names := [102, 111, 114, 119, 97, 114, 100, 0, 116, 117, 114, 110, 0],
    name_actuatoradr := [0, 8],
    actuator_ctrllimited := [1, 0],
    actuator_ctrlrange := [-1/2, 1/2, -3, 3] }

/-- A data slice with two stale control entries. -/
def datW : MjDataK := { ctrl := [9, 9] }

/-- A controller enabled for the xlerobot scene on `mdlW` with the two
opposing keys `KeyW` and `KeyS` currently pressed. -/
def kcW : KC :=
  (((KC.init.enable xleScene mdlW datW).2.onKeyDown
      { targetTag := tagBody, code := codeKeyW }).1.onKeyDown
    { targetTag := tagBody, code := codeKeyS }).1

/-- Classification used for C5-C7: `path.endsWith('.xml')`. -/
def isXmlFile (f : UFile) : Bool := strEndsWith f.path xmlExt

/-- Classification used for C5: an `.xml` file whose lowercased filename
contains `object`. -/
def isObjectXml (f : UFile) : Bool :=
  isXmlFile f && strIncludes (jsToLower (lastSegment f.path)) objectStr

/-- Classification used for C5: a non-object `.xml` file with non-empty
content — the kind of file that can permanently become the robot
definition. -/
def isGoodRobotXml (f : UFile) : Bool :=
  isXmlFile f && !strIncludes (jsToLower (lastSegment f.path)) objectStr &&
    f.text != emptyStr

/-- Spec-side description for C5: the content of the last object-classified
`.xml` in the upload, scanning from the end. -/
def lastObjectsText : List UFile → Option String
  | [] => none
  | f :: rest =>
    match lastObjectsText rest with
    | some t => some t
    | none => if isObjectXml f then some f.text else none

/-- The robot directory `${basePath}/${robotName}`. -/
def robotDirOf (basePath robotName : String) : String :=
  basePath ++ slashStr ++ robotName

/-- The first candidate URL, `${robotDir}/${robotName}.xml`. -/
def candidate1 (basePath robotName : String) : String :=
  robotDirOf basePath robotName ++ slashStr ++ (robotName ++ xmlExt)

/-- The second candidate URL, `${robotDir}/robot.xml`. -/
def candidate2 (basePath robotName : String) : String :=
  robotDirOf basePath robotName ++ slashStr ++ robotXmlName

/-- The third candidate URL, `${robotDir}/main.xml`. -/
def candidate3 (basePath robotName : String) : String :=
  robotDirOf basePath robotName ++ slashStr ++ mainXmlName

/-- The optional objects URL, `${robotDir}/objects.xml`. -/
def objectsUrl (basePath robotName : String) : String :=
  robotDirOf basePath robotName ++ slashStr ++ objectsXmlName

/-- Spec-side description for C6: the response of the first candidate fetch
that succeeds, in candidate order. -/
def firstSuccess (fetch : String → Option String) (basePath robotName : String) :
    Option String :=
  if (fetch (candidate1 basePath robotName)).isSome then fetch (candidate1 basePath robotName)
  else if (fetch (candidate2 basePath robotName)).isSome then
    fetch (candidate2 basePath robotName)
  else fetch (candidate3 basePath robotName)

/-- A robot name for concrete runs. -/
def pandaStr : String := "panda"

/-- A base path for concrete runs. -/
def baseStr : String := "assets"

/-- A non-empty robot definition text. -/
def robotTextStr : String := "<mujoco/>"

/-- A fetch that always resolves with empty text. -/
def fetchEmpty : String → Option String := fun _ => some emptyStr

/-- A fetch where only the second candidate (`robot.xml`) exists. -/
def fetchRobot2 : String → Option String :=
  fun u => if u == candidate2 baseStr pandaStr then some robotTextStr else none

/-- An uploaded non-object `.xml` with empty content. -/
def fEmptyRobot : UFile := { path := "r/robot.xml", text := emptyStr, bytes := [] }

/-- An uploaded non-object `.xml` with non-empty content. -/
def fGood : UFile := { path := "r/arm.xml", text := robotTextStr, bytes := [] }

/-- A second non-object `.xml` with non-empty content. -/
def fGood2 : UFile := { path := "r/arm2.xml", text := "<mujoco2/>", bytes := [] }

/-- An uploaded objects definition (uppercase name, nested path). -/
def fObj : UFile := { path := "r/OBJECTS.xml", text := "<objects/>", bytes := [] }

/-- A binary file under a `mesh/` (no `es`) directory: the capture check
accepts it, but the split regex `meshes?\/` matches only `meshes/` or
`meshe/`, so its key is the full path. -/
def fMeshDir : UFile := { path := "a/mesh/p.stl", text := emptyStr, bytes := [5] }

/-- An `.xml` file inside a `meshes/` directory: matched by the `.xml`
branch, not the mesh branch. -/
def fMeshXml : UFile := { path := "r/meshes/part.xml", text := "<part/>", bytes := [1, 2] }

/-- A binary mesh file inside a `meshes/` directory. -/
def fMeshStl : UFile := { path := "r/meshes/part.stl", text := emptyStr, bytes := [3, 4] }

/-! ## Shared helper lemmas -/

theorem lookup_jsInsert_self {α : Type} (l : List (String × α)) (k : String) (v : α) :
    (jsInsert l k v).lookup k = some v := by
  induction l with
  | nil => simp [jsInsert, List.lookup]
  | cons hd tl ih =>
    obtain ⟨k', v'⟩ := hd
    by_cases h : k' = k
    · simp [jsInsert, h, List.lookup]
    · simp only [jsInsert, if_neg h, List.lookup]
      have : (k == k') = false := by
        simp [beq_iff_eq]
        exact fun hk => h hk.symm
      simp [this, ih]

theorem lookup_jsInsert_ne {α : Type} (l : List (String × α)) (k : String) (v : α)
    (k' : String) (h : k' ≠ k) : (jsInsert l k v).lookup k' = l.lookup k' := by
  induction l with
  | nil =>
    simp only [jsInsert, List.lookup]
    have : (k' == k) = false := by simp [beq_iff_eq, h]
    simp [this]
  | cons hd tl ih =>
    obtain ⟨k₀, v₀⟩ := hd
    by_cases h0 : k₀ = k
    · subst h0
      have : (k' == k₀) = false := by simp [beq_iff_eq, h]
      simp [jsInsert, List.lookup, this]
    · simp only [jsInsert, if_neg h0, List.lookup]
      by_cases he : k' = k₀
      · subst he; simp [beq_iff_eq]
      · have : (k' == k₀) = false := by simp [beq_iff_eq, he]
        simp [this, ih]

/-! ## C3: enable on an unconfigured scene -/

/-- C3 (counterexample): with the xlerobot mapping enabled, calling `enable`
for a scene that has no configuration returns `false` but does NOT leave the
controller's state unchanged: the prior mapping has been disabled. -/
theorem enable_unconfigured_changes_enabled_state :
    kcXle.enabled = true ∧
    (kcXle.enable unknownScene mdl0 dat0).1 = false ∧
    (kcXle.enable unknownScene mdl0 dat0).2 ≠ kcXle := by
  refine ⟨by decide, by decide, fun h => ?_⟩
  have h1 := congrArg KC.enabled h
  revert h1
  decide

/-- C3 (amended): for every scene name without a registered configuration,
`enable` returns `false` and leaves the controller in the state produced by
`disable()`: unchanged when the controller was already disabled, but with any
previously enabled mapping cleared first. -/
theorem enable_unconfigured_scene (kc : KC) (sceneName : String)
    (model : MjModelK) (data : MjDataK) (h : getConfig sceneName = none) :
    (kc.enable sceneName model data).1 = false ∧
    (kc.enable sceneName model data).2 = kc.disable ∧
    (kc.enabled = false → (kc.enable sceneName model data).2 = kc) := by
  refine ⟨?_, ?_, ?_⟩
  · simp [KC.enable, h]
  · simp [KC.enable, h]
  · intro he
    simp [KC.enable, h, KC.disable, he]

/-- C3 (witness): instantiation of `enable_unconfigured_scene` at the
freshly constructed controller and the unconfigured scene name. -/
theorem enable_unconfigured_scene_witness :
    (KC.init.enable unknownScene mdl0 dat0).1 = false ∧
    (KC.init.enable unknownScene mdl0 dat0).2 = KC.init.disable ∧
    (KC.init.enabled = false → (KC.init.enable unknownScene mdl0 dat0).2 = KC.init) :=
  enable_unconfigured_scene KC.init unknownScene mdl0 dat0 (by decide)

/-! ## C9: key event handling -/

/-- C9 (counterexample): while enabled, a key-up event whose target is a text
input field is NOT ignored: with `KeyW` held down, a key-up for `KeyW`
targeting an `INPUT` element clears the key state and calls
`preventDefault`. -/
theorem keyup_in_text_input_not_ignored :
    ((kcXle.onKeyDown { targetTag := tagBody, code := codeKeyW }).1.onKeyUp
        { targetTag := tagInput, code := codeKeyW }).2 = true ∧
    ((kcXle.onKeyDown { targetTag := tagBody, code := codeKeyW }).1.onKeyUp
        { targetTag := tagInput, code := codeKeyW }).1 ≠
      (kcXle.onKeyDown { targetTag := tagBody, code := codeKeyW }).1 := by
  refine ⟨by decide, fun h => ?_⟩
  have h1 := congrArg KC.keyStates h
  revert h1
  decide

/-- C9 (amended): while the controller is enabled, a key-down event targeting
a text-input element (`INPUT` or `TEXTAREA`) is ignored; key-up events are
processed regardless of the event target; in both handlers, only events whose
key code is present in the controller's key-state table (the table is
initialized from exactly the active scene's configured keys) change the key
state and have their default behaviour prevented. -/
theorem key_event_handling (kc : KC) (e : KeyEvent) (hen : kc.enabled = true) :
    ((e.targetTag = "INPUT" ∨ e.targetTag = "TEXTAREA") →
       kc.onKeyDown e = (kc, false)) ∧
    ((kc.keyStates.lookup e.code).isNone →
       kc.onKeyDown e = (kc, false) ∧ kc.onKeyUp e = (kc, false)) ∧
    ((kc.keyStates.lookup e.code).isSome →
       ¬(e.targetTag = "INPUT" ∨ e.targetTag = "TEXTAREA") →
       kc.onKeyDown e = ({ kc with keyStates := jsInsert kc.keyStates e.code true }, true)) ∧
    ((kc.keyStates.lookup e.code).isSome →
       kc.onKeyUp e = ({ kc with keyStates := jsInsert kc.keyStates e.code false }, true)) := by
  refine ⟨?_, ?_, ?_, ?_⟩
  · intro htag
    have h : (e.targetTag == "INPUT" || e.targetTag == "TEXTAREA") = true := by
      rcases htag with h | h <;> rw [h] <;> simp
    simp [KC.onKeyDown, hen, h]
  · intro hnone
    cases hopt : List.lookup e.code kc.keyStates with
    | some v => rw [hopt] at hnone; simp at hnone
    | none =>
      constructor
      · by_cases htag : (e.targetTag == "INPUT" || e.targetTag == "TEXTAREA") = true
        · simp [KC.onKeyDown, hen, htag]
        · simp [KC.onKeyDown, hen, htag, hopt]
      · simp [KC.onKeyUp, hen, hopt]
  · intro hsome htag
    have h1 : (e.targetTag == "INPUT") = false :=
      beq_eq_false_iff_ne.mpr (fun h => htag (Or.inl h))
    have h2 : (e.targetTag == "TEXTAREA") = false :=
      beq_eq_false_iff_ne.mpr (fun h => htag (Or.inr h))
    simp [KC.onKeyDown, hen, h1, h2, hsome]
  · intro hsome
    simp [KC.onKeyUp, hen, hsome]

/-- C9 (witness): instantiation of `key_event_handling` at the enabled
xlerobot controller and a `KeyW` event from a non-input target. -/
theorem key_event_handling_witness :
    ((KeyEvent.targetTag { targetTag := tagBody, code := codeKeyW } = "INPUT" ∨
        KeyEvent.targetTag { targetTag := tagBody, code := codeKeyW } = "TEXTAREA") →
       kcXle.onKeyDown { targetTag := tagBody, code := codeKeyW } = (kcXle, false)) ∧
    ((kcXle.keyStates.lookup codeKeyW).isNone →
       kcXle.onKeyDown { targetTag := tagBody, code := codeKeyW } = (kcXle, false) ∧
         kcXle.onKeyUp { targetTag := tagBody, code := codeKeyW } = (kcXle, false)) ∧
    ((kcXle.keyStates.lookup codeKeyW).isSome →
       ¬(KeyEvent.targetTag { targetTag := tagBody, code := codeKeyW } = "INPUT" ∨
           KeyEvent.targetTag { targetTag := tagBody, code := codeKeyW } = "TEXTAREA") →
       kcXle.onKeyDown { targetTag := tagBody, code := codeKeyW } =
         ({ kcXle with keyStates := jsInsert kcXle.keyStates codeKeyW true }, true)) ∧
    ((kcXle.keyStates.lookup codeKeyW).isSome →
       kcXle.onKeyUp { targetTag := tagBody, code := codeKeyW } =
         ({ kcXle with keyStates := jsInsert kcXle.keyStates codeKeyW false }, true)) :=
  key_event_handling kcXle { targetTag := tagBody, code := codeKeyW } (by decide)

/-! ## Simulation clock: loop lemmas -/

theorem runLoop_stop (env : Env) (timeMS noisestd noiserate : ℚ)
    (drag : Option DragSession) (fuel : ℕ) (s : ThreadState)
    (h : ¬ s.mujoco_time < timeMS) :
    runLoop env timeMS noisestd noiserate drag fuel s = (s, []) := by
  cases fuel <;> simp [runLoop, h]

theorem runLoop_complete (env : Env) (timeMS noisestd noiserate : ℚ)
    (drag : Option DragSession) (fuel : ℕ) (s : ThreadState)
    (hfuel : timeMS ≤ s.mujoco_time + (fuel : ℚ) * (env.timestep * 1000)) :
    (runLoop env timeMS noisestd noiserate drag fuel s).1.mujoco_time =
      s.mujoco_time +
        ((runLoop env timeMS noisestd noiserate drag fuel s).2.length : ℚ) *
          (env.timestep * 1000) ∧
    timeMS ≤ (runLoop env timeMS noisestd noiserate drag fuel s).1.mujoco_time ∧
    ∀ i < (runLoop env timeMS noisestd noiserate drag fuel s).2.length,
      s.mujoco_time + (i : ℚ) * (env.timestep * 1000) < timeMS := by
  induction fuel generalizing s with
  | zero =>
    refine ⟨by simp [runLoop], ?_, ?_⟩
    · simp only [runLoop]
      push_cast at hfuel
      linarith
    · intro i hi
      simp [runLoop] at hi
  | succ fuel ih =>
    by_cases hlt : s.mujoco_time < timeMS
    · have hfuel2 :
          timeMS ≤ (s.mujoco_time + env.timestep * 1000) + (fuel : ℚ) * (env.timestep * 1000) := by
        push_cast at hfuel
        linarith
      obtain ⟨ih1, ih2, ih3⟩ := ih
        { mujoco_time := s.mujoco_time + env.timestep * 1000,
          ctrl := (noiseCtrl env noisestd noiserate s.draws s.ctrl).1,
          qfrc_applied := (perturbStep env drag s.qfrc_applied).qfrcFinal,
          draws := (noiseCtrl env noisestd noiserate s.draws s.ctrl).2 }
        hfuel2
      simp only [runLoop, if_pos hlt]
      refine ⟨?_, ?_, ?_⟩
      · simp only [List.length_cons]
        push_cast
        simp only [ThreadState.mujoco_time] at ih1
        rw [ih1]
        ring
      · exact ih2
      · intro i hi
        cases i with
        | zero => simpa using hlt
        | succ j =>
          have hj := ih3 j (by simpa using hi)
          simp only [ThreadState.mujoco_time] at hj
          push_cast
          linarith
    · rw [runLoop_stop env timeMS noisestd noiserate drag _ s hlt]
      refine ⟨by simp, le_of_not_lt hlt, ?_⟩
      intro i hi
      simp at hi

theorem runLoop_log (env : Env) (timeMS noisestd noiserate : ℚ)
    (drag : Option DragSession) (fuel : ℕ) (s : ThreadState) :
    ∀ l ∈ (runLoop env timeMS noisestd noiserate drag fuel s).2,
      l.ctrlAfterNoise = (noiseCtrl env noisestd noiserate l.drawBase l.ctrlBefore).1 ∧
      ∃ q : List ℚ,
        l.qfrcZeroed = q.map (fun _ => 0) ∧
        perturbStep env drag q =
          { qfrcZeroed := l.qfrcZeroed, qfrcFinal := l.qfrcAtStep, ftCall := l.ftCall } := by
  induction fuel generalizing s with
  | zero => simp [runLoop]
  | succ fuel ih =>
    by_cases hlt : s.mujoco_time < timeMS
    · simp only [runLoop, if_pos hlt, List.mem_cons]
      rintro l (rfl | hl)
      · refine ⟨rfl, s.qfrc_applied, ?_, ?_⟩
        · cases drag with
          | none => simp [perturbStep]
          | some d =>
            by_cases hb : (d.bodyID != 0) = true <;> simp [perturbStep, hb]
        · rfl
      · exact ih _ l hl
    · rw [runLoop_stop env timeMS noisestd noiserate drag _ s hlt]
      simp

theorem renderFrame_log (env : Env) (timeMS noisestd noiserate : ℚ)
    (drag : Option DragSession) (fuel : ℕ) (s : ThreadState) :
    ∀ l ∈ (renderFrame env false timeMS noisestd noiserate drag fuel s).2,
      l.ctrlAfterNoise = (noiseCtrl env noisestd noiserate l.drawBase l.ctrlBefore).1 ∧
      ∃ q : List ℚ,
        l.qfrcZeroed = q.map (fun _ => 0) ∧
        perturbStep env drag q =
          { qfrcZeroed := l.qfrcZeroed, qfrcFinal := l.qfrcAtStep, ftCall := l.ftCall } := by
  intro l hl
  simp only [renderFrame, Bool.false_eq_true, if_false] at hl
  by_cases hsnap : 35 < timeMS - s.mujoco_time
  · rw [if_pos hsnap] at hl
    exact runLoop_log env timeMS noisestd noiserate drag fuel _ l hl
  · rw [if_neg hsnap] at hl
    exact runLoop_log env timeMS noisestd noiserate drag fuel _ l hl

/-! ## C1: fixed-step clock with backlog drop -/

/-- C1: for every frame rendered while unpaused: if wall time minus
simulation time exceeds 35 ms, simulation time is set to wall time and zero
physics steps run; otherwise steps run, each advancing simulation time by
exactly the model's fixed timestep (in milliseconds, `timestep * 1000`),
until simulation time is at least wall time — every executed step started
with simulation time still below wall time.  The fuel hypothesis only
requires the loop bound to suffice, which holds for any positive timestep
and large enough fuel. -/
theorem frame_clock (env : Env) (timeMS noisestd noiserate : ℚ)
    (drag : Option DragSession) (fuel : ℕ) (s : ThreadState)
    (hfuel : ¬ 35 < timeMS - s.mujoco_time →
      timeMS ≤ s.mujoco_time + (fuel : ℚ) * (env.timestep * 1000)) :
    (35 < timeMS - s.mujoco_time →
       (renderFrame env false timeMS noisestd noiserate drag fuel s).1.mujoco_time = timeMS ∧
       (renderFrame env false timeMS noisestd noiserate drag fuel s).2 = []) ∧
    (¬ 35 < timeMS - s.mujoco_time →
       (renderFrame env false timeMS noisestd noiserate drag fuel s).1.mujoco_time =
         s.mujoco_time +
           ((renderFrame env false timeMS noisestd noiserate drag fuel s).2.length : ℚ) *
             (env.timestep * 1000) ∧
       timeMS ≤ (renderFrame env false timeMS noisestd noiserate drag fuel s).1.mujoco_time ∧
       ∀ i < (renderFrame env false timeMS noisestd noiserate drag fuel s).2.length,
         s.mujoco_time + (i : ℚ) * (env.timestep * 1000) < timeMS) := by
  constructor
  · intro hsnap
    simp only [renderFrame, Bool.false_eq_true, if_false, if_pos hsnap]
    rw [runLoop_stop env timeMS noisestd noiserate drag fuel _ (by simp)]
    exact ⟨rfl, rfl⟩
  · intro hno
    simp only [renderFrame, Bool.false_eq_true, if_false, if_neg hno]
    exact runLoop_complete env timeMS noisestd noiserate drag fuel s (hfuel hno)

/-- C1 (witness): instantiation of `frame_clock` with timestep 2 ms, wall
time 5 ms, simulation time 0 and fuel 10. -/
theorem frame_clock_witness :
    ((35:ℚ) < 5 - st0.mujoco_time →
       (renderFrame env0 false 5 0 0 none 10 st0).1.mujoco_time = 5 ∧
       (renderFrame env0 false 5 0 0 none 10 st0).2 = []) ∧
    (¬ (35:ℚ) < 5 - st0.mujoco_time →
       (renderFrame env0 false 5 0 0 none 10 st0).1.mujoco_time =
         st0.mujoco_time +
           ((renderFrame env0 false 5 0 0 none 10 st0).2.length : ℚ) *
             (env0.timestep * 1000) ∧
       (5:ℚ) ≤ (renderFrame env0 false 5 0 0 none 10 st0).1.mujoco_time ∧
       ∀ i < (renderFrame env0 false 5 0 0 none 10 st0).2.length,
         st0.mujoco_time + (i : ℚ) * (env0.timestep * 1000) < 5) :=
  frame_clock env0 5 0 0 none 10 st0 (fun _ => by norm_num [st0, env0])

/-! ## C8: correlated control noise -/

/-- C8: before each physics step, when the configured noise standard
deviation is strictly positive, every control value `c` is replaced by
`rate * c + scale * N(0,1)` with `rate = exp(-timestep / max(eps, noiseRate))`
and `scale = noiseStd * sqrt(1 - rate^2)`; when it is zero the noise step
leaves the control vector unchanged regardless of the noise rate. -/
theorem control_noise_step (env : Env) (timeMS noisestd noiserate : ℚ)
    (drag : Option DragSession) (fuel : ℕ) (s : ThreadState) :
    ∀ l ∈ (renderFrame env false timeMS noisestd noiserate drag fuel s).2,
      (0 < noisestd →
        l.ctrlAfterNoise.length = l.ctrlBefore.length ∧
        ∀ i < l.ctrlBefore.length,
          l.ctrlAfterNoise.getD i 0 =
            noiseRateOf env noiserate * l.ctrlBefore.getD i 0 +
              noiseScaleOf env noisestd noiserate * env.normal (l.drawBase + i)) ∧
      (noisestd = 0 → l.ctrlAfterNoise = l.ctrlBefore) := by
  intro l hl
  obtain ⟨hn, -⟩ := renderFrame_log env timeMS noisestd noiserate drag fuel s l hl
  constructor
  · intro hpos
    rw [hn]
    constructor
    · simp [noiseCtrl, hpos]
    · intro i hi
      simp only [noiseCtrl, if_pos hpos]
      rw [List.getD_eq_getElem?_getD, List.getElem?_mapIdx,
        List.getElem?_eq_getElem hi, List.getD_eq_getElem?_getD,
        List.getElem?_eq_getElem hi]
      simp
  · intro h0
    rw [hn]
    simp [noiseCtrl, h0]

/-- C8 (witness): instantiation of `control_noise_step` at the one-step
noisy run (noise std 1) and its unique iteration log. -/
theorem control_noise_step_witness :
    logN.ctrlAfterNoise.length = logN.ctrlBefore.length ∧
    ∀ i < logN.ctrlBefore.length,
      logN.ctrlAfterNoise.getD i 0 =
        noiseRateOf envN 1 * logN.ctrlBefore.getD i 0 +
          noiseScaleOf envN 1 1 * envN.normal (logN.drawBase + i) :=
  (control_noise_step envN 1 1 1 none 1 stN logN
      (by norm_num [logN, logDefault, renderFrame, runLoop, noiseCtrl, perturbStep,
        envN, env0, stN, List.mapIdx_cons, noiseRateOf, noiseScaleOf])).1
    (by norm_num)

/-! ## C2: drag force magnitude -/

/-- C2 (counterexample): running the frame with body mass 2, hit point
(0,0,0) and current point (0.1,0,0) yields a `mj_applyFT` call with force
(50,0,0) — not the (5,0,0) asserted by the claim's worked example. -/
theorem drag_force_counterexample :
    (renderFrame env0 false 1 0 0 (some dragD) 1 stD).2.map IterLog.ftCall =
      [some { force := { x := 50, y := 0, z := 0 },
              torque := { x := 0, y := 0, z := 0 },
              point := { x := 0, y := 0, z := 0 }, body := 1 }] ∧
    (renderFrame env0 false 1 0 0 (some dragD) 1 stD).2.map IterLog.ftCall ≠
      [some { force := { x := 5, y := 0, z := 0 },
              torque := { x := 0, y := 0, z := 0 },
              point := { x := 0, y := 0, z := 0 }, body := 1 }] := by
  have h : (renderFrame env0 false 1 0 0 (some dragD) 1 stD).2.map IterLog.ftCall =
      [some { force := { x := 50, y := 0, z := 0 },
              torque := { x := 0, y := 0, z := 0 },
              point := { x := 0, y := 0, z := 0 }, body := 1 }] := by
    norm_num [renderFrame, runLoop, noiseCtrl, perturbStep, toMujocoPos,
      Vec3.smul, Vec3.sub, Vec3.zero, env0, dragD, stD]
  refine ⟨h, ?_⟩
  rw [h]
  intro hc
  have := List.head_eq_of_cons_eq hc
  simp [FTCall.mk.injEq, Vec3.mk.injEq] at this

/-- C2 (amended): while running with an active drag session, before each
physics step the full applied-force buffer is zeroed and then a force equal
to (currentWorldPoint − worldHitPoint) × bodyMass × 250 with zero torque is
applied at the world hit point of the dragged body; in particular, for
bodyMass = 2.0, hit = (0,0,0), current = (0.1,0,0), the applied force is
(50,0,0), since 2.0 × 0.1 × 250 = 50 along x. -/
theorem drag_force_application (env : Env) (timeMS noisestd noiserate : ℚ)
    (fuel : ℕ) (s : ThreadState) (d : DragSession) (hb : d.bodyID ≠ 0) :
    (∀ l ∈ (renderFrame env false timeMS noisestd noiserate (some d) fuel s).2,
       (∀ x ∈ l.qfrcZeroed, x = 0) ∧
       l.ftCall = some
         { force := Vec3.smul (Vec3.sub d.currentWorld d.worldHit)
             (env.body_mass d.bodyID * 250),
           torque := Vec3.zero, point := d.worldHit, body := d.bodyID } ∧
       l.qfrcAtStep =
         env.mj_applyFT
           (Vec3.smul (Vec3.sub d.currentWorld d.worldHit) (env.body_mass d.bodyID * 250))
           Vec3.zero d.worldHit d.bodyID l.qfrcZeroed) ∧
    Vec3.smul (Vec3.sub { x := 1/10, y := 0, z := 0 } { x := 0, y := 0, z := 0 })
        ((2:ℚ) * 250) =
      { x := 50, y := 0, z := 0 } := by
  constructor
  · intro l hl
    obtain ⟨-, q, hq, hp⟩ :=
      renderFrame_log env timeMS noisestd noiserate (some d) fuel s l hl
    have hb' : (d.bodyID != 0) = true := by simpa using hb
    simp only [perturbStep, hb', if_true, toMujocoPos, PerturbResult.mk.injEq] at hp
    obtain ⟨hz, hf, hc⟩ := hp
    refine ⟨?_, hc.symm, ?_⟩
    · intro x hx
      rw [hq] at hx
      simp only [List.mem_map] at hx
      obtain ⟨a, -, ha⟩ := hx
      exact ha.symm
    · rw [← hf, hq]
  · norm_num [Vec3.smul, Vec3.sub]

/-- C2 (witness): instantiation of `drag_force_application` at the one-step
dragged run with the worked example's mass and points. -/
theorem drag_force_application_witness :
    (∀ l ∈ (renderFrame env0 false 1 0 0 (some dragD) 1 stD).2,
       (∀ x ∈ l.qfrcZeroed, x = 0) ∧
       l.ftCall = some
         { force := Vec3.smul (Vec3.sub dragD.currentWorld dragD.worldHit)
             (env0.body_mass dragD.bodyID * 250),
           torque := Vec3.zero, point := dragD.worldHit, body := dragD.bodyID } ∧
       l.qfrcAtStep =
         env0.mj_applyFT
           (Vec3.smul (Vec3.sub dragD.currentWorld dragD.worldHit)
             (env0.body_mass dragD.bodyID * 250))
           Vec3.zero dragD.worldHit dragD.bodyID l.qfrcZeroed) ∧
    Vec3.smul (Vec3.sub { x := 1/10, y := 0, z := 0 } { x := 0, y := 0, z := 0 })
        ((2:ℚ) * 250) =
      { x := 50, y := 0, z := 0 } :=
  drag_force_application env0 1 0 0 1 stD dragD (by decide)

/-! ## C10: applied-force buffer cleared for every step -/

/-- C10: in every unpaused frame, each executed physics step is preceded by
zeroing the entire generalized applied-force buffer, drag session or not;
consequently, whenever no drag session is active, every physics step runs
with an all-zero applied-force buffer, so no drag force persists past
pointer-up. -/
theorem qfrc_zeroed_each_step (env : Env) (timeMS noisestd noiserate : ℚ)
    (drag : Option DragSession) (fuel : ℕ) (s : ThreadState) :
    (∀ l ∈ (renderFrame env false timeMS noisestd noiserate drag fuel s).2,
       ∀ x ∈ l.qfrcZeroed, x = 0) ∧
    (dragActive drag = false →
       ∀ l ∈ (renderFrame env false timeMS noisestd noiserate drag fuel s).2,
         l.qfrcAtStep = l.qfrcZeroed ∧ ∀ x ∈ l.qfrcAtStep, x = 0) := by
  have hzero :
      ∀ l ∈ (renderFrame env false timeMS noisestd noiserate drag fuel s).2,
        ∀ x ∈ l.qfrcZeroed, x = 0 := by
    intro l hl
    obtain ⟨-, q, hq, -⟩ :=
      renderFrame_log env timeMS noisestd noiserate drag fuel s l hl
    intro x hx
    rw [hq] at hx
    simp only [List.mem_map] at hx
    obtain ⟨a, -, ha⟩ := hx
    exact ha.symm
  refine ⟨hzero, ?_⟩
  intro hdrag l hl
  obtain ⟨-, q, hq, hp⟩ :=
    renderFrame_log env timeMS noisestd noiserate drag fuel s l hl
  have hstep : l.qfrcAtStep = l.qfrcZeroed := by
    cases drag with
    | none =>
      simp only [perturbStep, PerturbResult.mk.injEq] at hp
      rw [← hp.2.1, ← hp.1]
    | some d =>
      have hb : (d.bodyID != 0) = false := by simpa [dragActive] using hdrag
      simp only [perturbStep, hb, Bool.false_eq_true, if_false,
        PerturbResult.mk.injEq] at hp
      rw [← hp.2.1, ← hp.1]
  exact ⟨hstep, fun x hx => hzero l hl x (hstep ▸ hx)⟩

/-- C10 (witness): instantiation of `qfrc_zeroed_each_step` at the one-step
run without a drag session, starting from a stale nonzero buffer. -/
theorem qfrc_zeroed_each_step_witness :
    (∀ x ∈ logQ.qfrcZeroed, x = 0) ∧
    logQ.qfrcAtStep = logQ.qfrcZeroed ∧ ∀ x ∈ logQ.qfrcAtStep, x = 0 :=
  have hmem : logQ ∈ (renderFrame env0 false 1 0 0 none 1 stD).2 := by
    norm_num [logQ, logDefault, renderFrame, runLoop, noiseCtrl, perturbStep,
      env0, stD]
  ⟨(qfrc_zeroed_each_step env0 1 0 0 none 1 stD).1 logQ hmem,
   (qfrc_zeroed_each_step env0 1 0 0 none 1 stD).2 (by decide) logQ hmem⟩

/-! ## C4: grouping, summing and clamping in update() -/

theorem accumValues_lookup_some (ai : List (String × ℕ)) (ks : List (String × Bool))
    (a : String) (idx : ℕ) (hai : ai.lookup a = some idx) :
    ∀ (controls : List Control) (acc : List (String × ℚ)) (s : ℚ),
      acc.lookup a = some s →
      (accumValues ai ks controls acc).lookup a =
        some (s + specPressedSum ks a controls) := by
  intro controls
  induction controls with
  | nil =>
    intro acc s hs
    simp [accumValues, specPressedSum, hs]
  | cons c rest ih =>
    intro acc s hs
    by_cases hc : c.actuator = a
    · have hbc : ai.lookup c.actuator = some idx := by rw [hc]; exact hai
      simp only [accumValues, hbc, hc, hai, hs, Option.isNone_some, Bool.false_eq_true,
        if_false, Option.getD_some]
      by_cases hk : ks.lookup c.key = some true
      · rw [if_pos hk, ih _ (s + c.value) (lookup_jsInsert_self acc a (s + c.value))]
        simp only [specPressedSum, hc, hk, and_self, if_pos, eq_self_iff_true, true_and,
          if_true]
        rw [add_assoc]
      · rw [if_neg hk, ih acc s hs]
        have hpv : ¬ (c.actuator = a ∧ ks.lookup c.key = some true) := fun h => hk h.2
        simp only [specPressedSum, if_neg hpv, zero_add]
    · have hins : ∀ (l : List (String × ℚ)) (v : ℚ),
          (jsInsert l c.actuator v).lookup a = l.lookup a :=
        fun l v => lookup_jsInsert_ne l c.actuator v a (fun h => hc h.symm)
      have hpv : ¬ (c.actuator = a ∧ ks.lookup c.key = some true) := fun h => hc h.1
      cases hbc : ai.lookup c.actuator with
      | none =>
        simp only [accumValues, hbc]
        rw [ih acc s hs]
        simp only [specPressedSum, if_neg hpv, zero_add]
      | some j =>
        simp only [accumValues, hbc]
        have h1 : (if (acc.lookup c.actuator).isNone then jsInsert acc c.actuator 0
            else acc).lookup a = some s := by
          split
          · rw [hins]; exact hs
          · exact hs
        rw [ih _ s ?hacc2]
        case hacc2 =>
          split
          · rw [hins]; exact h1
          · exact h1
        simp only [specPressedSum, if_neg hpv, zero_add]

theorem accumValues_lookup_none (ai : List (String × ℕ)) (ks : List (String × Bool))
    (a : String) (idx : ℕ) (hai : ai.lookup a = some idx) :
    ∀ (controls : List Control) (acc : List (String × ℚ)),
      acc.lookup a = none →
      (accumValues ai ks controls acc).lookup a =
        if a ∈ controls.map Control.actuator then some (specPressedSum ks a controls)
        else none := by
  intro controls
  induction controls with
  | nil =>
    intro acc hs
    simp [accumValues, hs]
  | cons c rest ih =>
    intro acc hs
    by_cases hc : c.actuator = a
    · have hbc : ai.lookup c.actuator = some idx := by rw [hc]; exact hai
      have hmem : a ∈ (c :: rest).map Control.actuator := by
        simp [List.mem_cons, hc.symm]
      simp only [accumValues, hbc, hc, hai, hs, Option.isNone_none, if_true,
        lookup_jsInsert_self, Option.getD_some]
      by_cases hk : ks.lookup c.key = some true
      · rw [if_pos hk,
          accumValues_lookup_some ai ks a idx hai rest _ (0 + c.value)
            (lookup_jsInsert_self _ a (0 + c.value)),
          if_pos hmem]
        simp only [specPressedSum, hc, hk, and_self, eq_self_iff_true, true_and, if_true]
        rw [zero_add]
      · rw [if_neg hk,
          accumValues_lookup_some ai ks a idx hai rest _ 0
            (lookup_jsInsert_self acc a 0),
          if_pos hmem]
        have hpv : ¬ (c.actuator = a ∧ ks.lookup c.key = some true) := fun h => hk h.2
        simp only [specPressedSum, if_neg hpv, zero_add]
    · have hins : ∀ (l : List (String × ℚ)) (v : ℚ),
          (jsInsert l c.actuator v).lookup a = l.lookup a :=
        fun l v => lookup_jsInsert_ne l c.actuator v a (fun h => hc h.symm)
      have hpv : ¬ (c.actuator = a ∧ ks.lookup c.key = some true) := fun h => hc h.1
      have hmem : (a ∈ (c :: rest).map Control.actuator) ↔
          (a ∈ rest.map Control.actuator) := by
        simp only [List.map_cons, List.mem_cons]
        exact or_iff_right (fun h => hc h.symm)
      cases hbc : ai.lookup c.actuator with
      | none =>
        simp only [accumValues, hbc]
        rw [ih acc hs]
        by_cases hm : a ∈ rest.map Control.actuator
        · rw [if_pos hm, if_pos (hmem.mpr hm)]
          simp only [specPressedSum, if_neg hpv, zero_add]
        · rw [if_neg hm, if_neg (fun h => hm (hmem.mp h))]
      | some j =>
        simp only [accumValues, hbc]
        have h1 : (if (acc.lookup c.actuator).isNone then jsInsert acc c.actuator 0
            else acc).lookup a = none := by
          split
          · rw [hins]; exact hs
          · exact hs
        rw [ih _ ?hacc2]
        case hacc2 =>
          split
          · rw [hins]; exact h1
          · exact h1
        by_cases hm : a ∈ rest.map Control.actuator
        · rw [if_pos hm, if_pos (hmem.mpr hm)]
          simp only [specPressedSum, if_neg hpv, zero_add]
        · rw [if_neg hm, if_neg (fun h => hm (hmem.mp h))]

theorem mem_keys_jsInsert {α : Type} (l : List (String × α)) (k : String) (v : α)
    (b : String) (hb : b ∈ (jsInsert l k v).map Prod.fst) :
    b = k ∨ b ∈ l.map Prod.fst := by
  induction l with
  | nil => simpa [jsInsert] using hb
  | cons hd tl ih =>
    obtain ⟨k0, v0⟩ := hd
    by_cases h0 : k0 = k
    · simp only [jsInsert, if_pos h0, List.map_cons, List.mem_cons] at hb
      rcases hb with rfl | hb
      · exact Or.inl rfl
      · exact Or.inr (List.mem_cons_of_mem _ hb)
    · simp only [jsInsert, if_neg h0, List.map_cons, List.mem_cons] at hb
      rcases hb with rfl | hb
      · exact Or.inr (List.mem_cons_self _ _)
      · rcases ih hb with h | h
        · exact Or.inl h
        · exact Or.inr (List.mem_cons_of_mem _ h)

theorem keys_nodup_jsInsert {α : Type} (l : List (String × α)) (k : String) (v : α)
    (h : (l.map Prod.fst).Nodup) : ((jsInsert l k v).map Prod.fst).Nodup := by
  induction l with
  | nil => simp [jsInsert]
  | cons hd tl ih =>
    obtain ⟨k0, v0⟩ := hd
    simp only [List.map_cons, List.nodup_cons] at h
    by_cases h0 : k0 = k
    · simp only [jsInsert, if_pos h0, List.map_cons, List.nodup_cons]
      exact ⟨by rw [← h0]; exact h.1, h.2⟩
    · simp only [jsInsert, if_neg h0, List.map_cons, List.nodup_cons]
      refine ⟨?_, ih h.2⟩
      intro hk0
      rcases mem_keys_jsInsert tl k v k0 hk0 with h' | h'
      · exact h0 h'
      · exact h.1 h'

theorem accumValues_keys_nodup (ai : List (String × ℕ)) (ks : List (String × Bool)) :
    ∀ (controls : List Control) (acc : List (String × ℚ)),
      (acc.map Prod.fst).Nodup →
      ((accumValues ai ks controls acc).map Prod.fst).Nodup := by
  intro controls
  induction controls with
  | nil =>
    intro acc h
    simpa [accumValues] using h
  | cons c rest ih =>
    intro acc h
    cases hbc : ai.lookup c.actuator with
    | none =>
      simp only [accumValues, hbc]
      exact ih acc h
    | some j =>
      simp only [accumValues, hbc]
      apply ih
      have h1 : ((if (acc.lookup c.actuator).isNone = true then jsInsert acc c.actuator 0
          else acc).map Prod.fst).Nodup := by
        split
        · exact keys_nodup_jsInsert acc c.actuator 0 h
        · exact h
      split
      · exact keys_nodup_jsInsert _ c.actuator _ h1
      · exact h1

theorem accumValues_keys_bound (ai : List (String × ℕ)) (ks : List (String × Bool)) :
    ∀ (controls : List Control) (acc : List (String × ℚ)) (b : String),
      ((accumValues ai ks controls acc).lookup b).isSome = true →
      (acc.lookup b).isSome = true ∨
        (b ∈ controls.map Control.actuator ∧ (ai.lookup b).isSome = true) := by
  intro controls
  induction controls with
  | nil =>
    intro acc b h
    exact Or.inl (by simpa [accumValues] using h)
  | cons c rest ih =>
    intro acc b h
    cases hbc : ai.lookup c.actuator with
    | none =>
      simp only [accumValues, hbc] at h
      rcases ih acc b h with h' | ⟨hm, hs⟩
      · exact Or.inl h'
      · exact Or.inr ⟨by simp only [List.map_cons, List.mem_cons]; exact Or.inr hm, hs⟩
    | some j =>
      simp only [accumValues, hbc] at h
      by_cases hb2 : b = c.actuator
      · refine Or.inr ⟨?_, ?_⟩
        · simp [List.map_cons, List.mem_cons, hb2]
        · rw [hb2, hbc]
          rfl
      · have hins : ∀ (l : List (String × ℚ)) (v : ℚ),
            (jsInsert l c.actuator v).lookup b = l.lookup b :=
          fun l v => lookup_jsInsert_ne l c.actuator v b hb2
        rcases ih _ b h with h' | ⟨hm, hs⟩
        · left
          have h1 : ((if (acc.lookup c.actuator).isNone = true then
              jsInsert acc c.actuator 0 else acc).lookup b) = acc.lookup b := by
            split
            · exact hins acc 0
            · rfl
          split at h'
          · rw [hins, h1] at h'
            exact h'
          · rw [h1] at h'
            exact h'
        · exact Or.inr ⟨by simp only [List.map_cons, List.mem_cons]; exact Or.inr hm, hs⟩

theorem lookup_isSome_of_mem {α : Type} (l : List (String × α)) (p : String × α)
    (hp : p ∈ l) : (l.lookup p.1).isSome = true := by
  induction l with
  | nil => simp at hp
  | cons hd tl ih =>
    rcases List.mem_cons.mp hp with rfl | hp'
    · simp [List.lookup]
    · obtain ⟨k0, v0⟩ := hd
      by_cases he : p.1 = k0
      · simp [List.lookup, he]
      · have : (p.1 == k0) = false := by simp [beq_iff_eq, he]
        simp only [List.lookup, this]
        exact ih hp'

theorem applyValues_getD_of_ne (ai : List (String × ℕ)) (model : MjModelK) :
    ∀ (vals : List (String × ℚ)) (c : List ℚ) (idx : ℕ),
      (∀ p ∈ vals, ¬ ai.lookup p.1 = some idx) →
      (applyValues ai model vals c).getD idx 0 = c.getD idx 0 := by
  intro vals
  induction vals with
  | nil =>
    intro c idx _
    rfl
  | cons ent rest ih =>
    intro c idx h
    simp only [applyValues]
    cases hb : ai.lookup ent.1 with
    | none => exact ih c idx (fun p hp => h p (List.mem_cons_of_mem _ hp))
    | some j =>
      have hj : j ≠ idx := by
        intro he
        exact h ent (List.mem_cons_self _ _) (by rw [hb, he])
      rw [ih _ idx (fun p hp => h p (List.mem_cons_of_mem _ hp)),
        List.getD_eq_getElem?_getD, List.getD_eq_getElem?_getD,
        List.getElem?_set_ne hj]

theorem applyValues_getD_eq (ai : List (String × ℕ)) (model : MjModelK) :
    ∀ (vals : List (String × ℚ)) (c : List ℚ) (a : String) (s : ℚ) (idx : ℕ),
      vals.lookup a = some s →
      (vals.map Prod.fst).Nodup →
      ai.lookup a = some idx →
      idx < c.length →
      (∀ p ∈ vals, p.1 ≠ a → ¬ ai.lookup p.1 = some idx) →
      (applyValues ai model vals c).getD idx 0 =
        if model.actuator_ctrllimited.getD idx 0 != 0 then
          max (model.actuator_ctrlrange.getD (2 * idx) 0)
            (min (model.actuator_ctrlrange.getD (2 * idx + 1) 0) s)
        else s := by
  intro vals
  induction vals with
  | nil =>
    intro c a s idx hl
    simp [List.lookup] at hl
  | cons ent rest ih =>
    intro c a s idx hl hnd hai hlen hother
    obtain ⟨b, w⟩ := ent
    by_cases hba : b = a
    · subst hba
      have hw : w = s := by simpa [List.lookup] using hl
      subst hw
      simp only [applyValues, hai]
      rw [applyValues_getD_of_ne ai model rest _ idx ?hrest]
      case hrest =>
        intro p hp
        apply hother p (List.mem_cons_of_mem _ hp)
        intro hpa
        simp only [List.map_cons, List.nodup_cons] at hnd
        exact hnd.1 (hpa ▸ List.mem_map_of_mem Prod.fst hp)
      rw [List.getD_eq_getElem?_getD, List.getElem?_set_self hlen]
      rfl
    · have hab : (a == b) = false := by
        simp [beq_iff_eq]
        exact fun h => hba h.symm
      have hl' : rest.lookup a = some s := by
        simpa [List.lookup, hab] using hl
      have hnd' : (rest.map Prod.fst).Nodup := by
        simp only [List.map_cons, List.nodup_cons] at hnd
        exact hnd.2
      have hother' : ∀ p ∈ rest, p.1 ≠ a → ¬ ai.lookup p.1 = some idx :=
        fun p hp => hother p (List.mem_cons_of_mem _ hp)
      simp only [applyValues]
      cases hb : ai.lookup b with
      | none => exact ih c a s idx hl' hnd' hai hlen hother'
      | some j =>
        apply ih _ a s idx hl' hnd' hai ?hlen2 hother'
        case hlen2 =>
          rw [List.length_set]
          exact hlen

/-- C4: for every enabled configuration and every key state, `update()`
writes, for each configured actuator with a resolved binding, the sum of the
signed step values of all currently-pressed keys bound to that actuator, and
that sum is clamped to the actuator's declared [min,max] range exactly when
the limited flag is set: an out-of-range sum is written as exactly min or
exactly max (for a well-formed range), an in-range sum as-is, and an
unlimited actuator's sum unclamped.  The last hypothesis rules out a second
configured actuator resolving to the same control index, in which case the
later write would win. -/
theorem update_writes_clamped_sum (kc : KC) (cfg : SceneConfig) (model : MjModelK)
    (data : MjDataK) (a : String) (idx : ℕ)
    (hen : kc.enabled = true) (hcfg : kc.config = some cfg)
    (hmodel : kc.model = some model) (hdata : kc.data = some data)
    (hbind : kc.actuatorIndices.lookup a = some idx)
    (hmem : a ∈ cfg.controls.map Control.actuator)
    (hlen : idx < data.ctrl.length)
    (hinj : ∀ b ∈ cfg.controls.map Control.actuator, b ≠ a →
      ¬ kc.actuatorIndices.lookup b = some idx) :
    ∃ d' : MjDataK, kc.update.data = some d' ∧
      d'.ctrl.getD idx 0 =
        (if model.actuator_ctrllimited.getD idx 0 != 0 then
          max (model.actuator_ctrlrange.getD (2 * idx) 0)
            (min (model.actuator_ctrlrange.getD (2 * idx + 1) 0)
              (specPressedSum kc.keyStates a cfg.controls))
        else specPressedSum kc.keyStates a cfg.controls) ∧
      (model.actuator_ctrllimited.getD idx 0 = 0 →
        d'.ctrl.getD idx 0 = specPressedSum kc.keyStates a cfg.controls) ∧
      ((model.actuator_ctrllimited.getD idx 0 != 0) = true →
        model.actuator_ctrlrange.getD (2 * idx) 0 ≤
          model.actuator_ctrlrange.getD (2 * idx + 1) 0 →
        ((specPressedSum kc.keyStates a cfg.controls <
            model.actuator_ctrlrange.getD (2 * idx) 0 →
          d'.ctrl.getD idx 0 = model.actuator_ctrlrange.getD (2 * idx) 0) ∧
         (model.actuator_ctrlrange.getD (2 * idx + 1) 0 <
            specPressedSum kc.keyStates a cfg.controls →
          d'.ctrl.getD idx 0 = model.actuator_ctrlrange.getD (2 * idx + 1) 0) ∧
         (model.actuator_ctrlrange.getD (2 * idx) 0 ≤
            specPressedSum kc.keyStates a cfg.controls →
          specPressedSum kc.keyStates a cfg.controls ≤
            model.actuator_ctrlrange.getD (2 * idx + 1) 0 →
          d'.ctrl.getD idx 0 = specPressedSum kc.keyStates a cfg.controls))) := by
  have hvals : (accumValues kc.actuatorIndices kc.keyStates cfg.controls []).lookup a =
      some (specPressedSum kc.keyStates a cfg.controls) := by
    have h := accumValues_lookup_none kc.actuatorIndices kc.keyStates a idx hbind
      cfg.controls [] (by simp [List.lookup])
    rwa [if_pos hmem] at h
  have hnd : ((accumValues kc.actuatorIndices kc.keyStates cfg.controls []).map
      Prod.fst).Nodup :=
    accumValues_keys_nodup kc.actuatorIndices kc.keyStates cfg.controls [] (by simp)
  have hdom : ∀ p ∈ accumValues kc.actuatorIndices kc.keyStates cfg.controls [],
      p.1 ≠ a → ¬ kc.actuatorIndices.lookup p.1 = some idx := by
    intro p hp hne
    have hsome := lookup_isSome_of_mem _ p hp
    rcases accumValues_keys_bound kc.actuatorIndices kc.keyStates cfg.controls [] p.1
        hsome with h' | ⟨hm, -⟩
    · simp [List.lookup] at h'
    · exact hinj p.1 hm hne
  have hmain := applyValues_getD_eq kc.actuatorIndices model
    (accumValues kc.actuatorIndices kc.keyStates cfg.controls []) data.ctrl a
    (specPressedSum kc.keyStates a cfg.controls) idx hvals hnd hbind hlen hdom
  refine ⟨MjDataK.mk (applyValues kc.actuatorIndices model
      (accumValues kc.actuatorIndices kc.keyStates cfg.controls []) data.ctrl),
    ?_, hmain, ?_, ?_⟩
  · simp [KC.update, hen, hcfg, hdata, hmodel]
  · intro h0
    rw [hmain, if_neg (by rw [h0]; decide)]
  · intro hlim hrange
    rw [hmain, if_pos hlim]
    refine ⟨?_, ?_, ?_⟩
    · intro hlt
      exact max_eq_left (le_trans (min_le_right _ _) (le_of_lt hlt))
    · intro hgt
      rw [min_eq_left (le_of_lt hgt)]
      exact max_eq_right hrange
    · intro hge hle
      rw [min_eq_right hle, max_eq_right hge]

/-- C4 (witness): on the concrete two-actuator model with opposing keys
`KeyW` and `KeyS` both pressed, the limited `forward` actuator at index 0
receives the clamped opposing-key sum, whose pre-clamp value is exactly 0. -/
theorem update_writes_clamped_sum_witness :
    (∃ d' : MjDataK, kcW.update.data = some d' ∧
      d'.ctrl.getD 0 0 =
        (if mdlW.actuator_ctrllimited.getD 0 0 != 0 then
          max (mdlW.actuator_ctrlrange.getD (2 * 0) 0)
            (min (mdlW.actuator_ctrlrange.getD (2 * 0 + 1) 0)
              (specPressedSum kcW.keyStates actForward cfgXle.controls))
        else specPressedSum kcW.keyStates actForward cfgXle.controls) ∧
      (mdlW.actuator_ctrllimited.getD 0 0 = 0 →
        d'.ctrl.getD 0 0 = specPressedSum kcW.keyStates actForward cfgXle.controls) ∧
      ((mdlW.actuator_ctrllimited.getD 0 0 != 0) = true →
        mdlW.actuator_ctrlrange.getD (2 * 0) 0 ≤ mdlW.actuator_ctrlrange.getD (2 * 0 + 1) 0 →
        ((specPressedSum kcW.keyStates actForward cfgXle.controls <
            mdlW.actuator_ctrlrange.getD (2 * 0) 0 →
          d'.ctrl.getD 0 0 = mdlW.actuator_ctrlrange.getD (2 * 0) 0) ∧
         (mdlW.actuator_ctrlrange.getD (2 * 0 + 1) 0 <
            specPressedSum kcW.keyStates actForward cfgXle.controls →
          d'.ctrl.getD 0 0 = mdlW.actuator_ctrlrange.getD (2 * 0 + 1) 0) ∧
         (mdlW.actuator_ctrlrange.getD (2 * 0) 0 ≤
            specPressedSum kcW.keyStates actForward cfgXle.controls →
          specPressedSum kcW.keyStates actForward cfgXle.controls ≤
            mdlW.actuator_ctrlrange.getD (2 * 0 + 1) 0 →
          d'.ctrl.getD 0 0 = specPressedSum kcW.keyStates actForward cfgXle.controls)))) ∧
    specPressedSum kcW.keyStates actForward cfgXle.controls = 0 :=
  ⟨update_writes_clamped_sum kcW cfgXle mdlW datW actForward 0 (by decide) rfl rfl rfl
      (by decide) (by decide) (by decide) (by decide),
   by
    have hks : kcW.keyStates =
        [(codeKeyW, true), (codeKeyS, true), ("KeyA", false), ("KeyD", false)] := by
      decide
    simp +decide [specPressedSum, hks, cfgXle, actForward, List.lookup, codeKeyW, codeKeyS]⟩

/-! ## C6: predefined robot candidate fetches -/

/-- C6 (counterexample): when the first candidate fetch resolves with empty
text, the call fails even though not all three candidates failed, refuting
the claimed "fails if and only if all three candidates fail". -/
theorem predefined_empty_fetch_counterexample :
    fetchEmpty (candidate1 baseStr pandaStr) = some emptyStr ∧
    (loadPredefinedRobot fetchEmpty pandaStr baseStr).isOk = false := by
  exact ⟨rfl, by decide⟩

/-- C6 (amended): loadPredefinedRobot tries name.xml, robot.xml, main.xml in
that order; the search stops at the first fetch that succeeds; the call fails
if and only if either all three candidates fail or the first successful
candidate resolved with empty text; on success the robot definition is the
first successful candidate's (non-empty) text, and a missing optional
objects.xml is not an error and yields a null objects definition. -/
theorem loadPredefinedRobot_spec (fetch : String → Option String)
    (robotName basePath : String) :
    (loadPredefinedRobot fetch robotName basePath =
        Except.error (errCouldNotFind ++ robotDirOf basePath robotName) ↔
      firstSuccess fetch basePath robotName = none ∨
        firstSuccess fetch basePath robotName = some emptyStr) ∧
    (∀ t, firstSuccess fetch basePath robotName = some t → t ≠ emptyStr →
      loadPredefinedRobot fetch robotName basePath =
        Except.ok
          { robotXml := t, objectsXml := fetch (objectsUrl basePath robotName),
            robotDir := robotDirOf basePath robotName }) := by
  have hcand1 : robotDirOf basePath robotName ++ slashStr ++ (robotName ++ xmlExt) =
      candidate1 basePath robotName := rfl
  cases h1 : fetch (candidate1 basePath robotName) with
  | some t1 =>
    have hfold : firstSuccess fetch basePath robotName = some t1 := by
      simp [firstSuccess, h1]
    by_cases he : t1 = emptyStr
    · constructor
      · rw [hfold]
        constructor
        · intro _
          exact Or.inr (by rw [he])
        · intro _
          simp only [loadPredefinedRobot, List.foldl, candidate1, candidate2, candidate3,
            robotDirOf] at *
          rw [show fetch (basePath ++ slashStr ++ robotName ++ slashStr ++
            (robotName ++ xmlExt)) = some t1 from h1]
          simp [strFalsy, he, emptyStr]
      · intro t ht hne
        rw [hfold] at ht
        cases ht
        exact absurd he hne
    · have hok : loadPredefinedRobot fetch robotName basePath =
          Except.ok
            { robotXml := t1, objectsXml := fetch (objectsUrl basePath robotName),
              robotDir := robotDirOf basePath robotName } := by
        simp only [loadPredefinedRobot, List.foldl, candidate1, candidate2, candidate3,
          robotDirOf, objectsUrl, objectsXmlName] at *
        rw [show fetch (basePath ++ slashStr ++ robotName ++ slashStr ++
          (robotName ++ xmlExt)) = some t1 from h1]
        have : strFalsy (some t1) = false := by
          simp [strFalsy, beq_iff_eq, he]
        simp [this]
      constructor
      · rw [hok, hfold]
        constructor
        · intro h
          exact absurd h (by simp)
        · rintro (h | h)
          · exact absurd h (by simp)
          · exact absurd (by injection h) he
      · intro t ht hne
        rw [hfold] at ht
        cases ht
        exact hok
  | none =>
    cases h2 : fetch (candidate2 basePath robotName) with
    | some t2 =>
      have hfold : firstSuccess fetch basePath robotName = some t2 := by
        simp [firstSuccess, h1, h2]
      by_cases he : t2 = emptyStr
      · constructor
        · rw [hfold]
          constructor
          · intro _
            exact Or.inr (by rw [he])
          · intro _
            simp only [loadPredefinedRobot, List.foldl, candidate1, candidate2, candidate3,
              robotDirOf, robotXmlName] at *
            rw [show fetch (basePath ++ slashStr ++ robotName ++ slashStr ++
              (robotName ++ xmlExt)) = none from h1]
            rw [show fetch (basePath ++ slashStr ++ robotName ++ slashStr ++ "robot.xml") =
              some t2 from h2]
            simp [strFalsy, he, emptyStr]
        · intro t ht hne
          rw [hfold] at ht
          cases ht
          exact absurd he hne
      · have hok : loadPredefinedRobot fetch robotName basePath =
            Except.ok
              { robotXml := t2, objectsXml := fetch (objectsUrl basePath robotName),
                robotDir := robotDirOf basePath robotName } := by
          simp only [loadPredefinedRobot, List.foldl, candidate1, candidate2, candidate3,
            robotDirOf, objectsUrl, objectsXmlName, robotXmlName] at *
          rw [show fetch (basePath ++ slashStr ++ robotName ++ slashStr ++
            (robotName ++ xmlExt)) = none from h1]
          rw [show fetch (basePath ++ slashStr ++ robotName ++ slashStr ++ "robot.xml") =
            some t2 from h2]
          have : strFalsy (some t2) = false := by
            simp [strFalsy, beq_iff_eq, he]
          simp [this]
        constructor
        · rw [hok, hfold]
          constructor
          · intro h
            exact absurd h (by simp)
          · rintro (h | h)
            · exact absurd h (by simp)
            · exact absurd (by injection h) he
        · intro t ht hne
          rw [hfold] at ht
          cases ht
          exact hok
    | none =>
      cases h3 : fetch (candidate3 basePath robotName) with
      | some t3 =>
        have hfold : firstSuccess fetch basePath robotName = some t3 := by
          simp [firstSuccess, h1, h2, h3]
        by_cases he : t3 = emptyStr
        · constructor
          · rw [hfold]
            constructor
            · intro _
              exact Or.inr (by rw [he])
            · intro _
              simp only [loadPredefinedRobot, List.foldl, candidate1, candidate2,
                candidate3, robotDirOf, robotXmlName, mainXmlName] at *
              rw [show fetch (basePath ++ slashStr ++ robotName ++ slashStr ++
                (robotName ++ xmlExt)) = none from h1]
              rw [show fetch (basePath ++ slashStr ++ robotName ++ slashStr ++
                "robot.xml") = none from h2]
              rw [show fetch (basePath ++ slashStr ++ robotName ++ slashStr ++
                "main.xml") = some t3 from h3]
              simp [strFalsy, he, emptyStr]
          · intro t ht hne
            rw [hfold] at ht
            cases ht
            exact absurd he hne
        · have hok : loadPredefinedRobot fetch robotName basePath =
              Except.ok
                { robotXml := t3, objectsXml := fetch (objectsUrl basePath robotName),
                  robotDir := robotDirOf basePath robotName } := by
            simp only [loadPredefinedRobot, List.foldl, candidate1, candidate2,
              candidate3, robotDirOf, objectsUrl, objectsXmlName, robotXmlName,
              mainXmlName] at *
            rw [show fetch (basePath ++ slashStr ++ robotName ++ slashStr ++
              (robotName ++ xmlExt)) = none from h1]
            rw [show fetch (basePath ++ slashStr ++ robotName ++ slashStr ++
              "robot.xml") = none from h2]
            rw [show fetch (basePath ++ slashStr ++ robotName ++ slashStr ++
              "main.xml") = some t3 from h3]
            have : strFalsy (some t3) = false := by
              simp [strFalsy, beq_iff_eq, he]
            simp [this]
          constructor
          · rw [hok, hfold]
            constructor
            · intro h
              exact absurd h (by simp)
            · rintro (h | h)
              · exact absurd h (by simp)
              · exact absurd (by injection h) he
          · intro t ht hne
            rw [hfold] at ht
            cases ht
            exact hok
      | none =>
        have hfold : firstSuccess fetch basePath robotName = none := by
          simp [firstSuccess, h1, h2, h3]
        have herr : loadPredefinedRobot fetch robotName basePath =
            Except.error (errCouldNotFind ++ robotDirOf basePath robotName) := by
          simp only [loadPredefinedRobot, List.foldl, candidate1, candidate2,
            candidate3, robotDirOf, robotXmlName, mainXmlName] at *
          rw [show fetch (basePath ++ slashStr ++ robotName ++ slashStr ++
            (robotName ++ xmlExt)) = none from h1]
          rw [show fetch (basePath ++ slashStr ++ robotName ++ slashStr ++
            "robot.xml") = none from h2]
          rw [show fetch (basePath ++ slashStr ++ robotName ++ slashStr ++
            "main.xml") = none from h3]
          simp [strFalsy]
        refine ⟨by rw [herr, hfold]; simp, ?_⟩
        intro t ht
        rw [hfold] at ht
        cases ht

/-- C6 (witness): instantiation of `loadPredefinedRobot_spec` where only the
second candidate `robot.xml` exists: its text becomes the robot definition
and the missing `objects.xml` yields a null objects definition. -/
theorem loadPredefinedRobot_spec_witness :
    loadPredefinedRobot fetchRobot2 pandaStr baseStr =
      Except.ok
        { robotXml := robotTextStr, objectsXml := fetchRobot2 (objectsUrl baseStr pandaStr),
          robotDir := robotDirOf baseStr pandaStr } :=
  (loadPredefinedRobot_spec fetchRobot2 pandaStr baseStr).2 robotTextStr (by decide)
    (by decide)

/-! ## C5: uploaded robot classification -/

theorem processNamePart_robotXml (acc : UploadAcc) (f : UFile) :
    (processNamePart acc f).robotXml = acc.robotXml := by
  simp only [processNamePart]
  split <;> rfl

theorem processNamePart_objectsXml (acc : UploadAcc) (f : UFile) :
    (processNamePart acc f).objectsXml = acc.objectsXml := by
  simp only [processNamePart]
  split <;> rfl

theorem processNamePart_meshFiles (acc : UploadAcc) (f : UFile) :
    (processNamePart acc f).meshFiles = acc.meshFiles := by
  simp only [processNamePart]
  split <;> rfl

theorem processUploadFile_robotXml_falsy (acc : UploadAcc) (f : UFile)
    (hg : isGoodRobotXml f = false) (hf : strFalsy acc.robotXml = true) :
    strFalsy (processUploadFile acc f).robotXml = true := by
  have hn := processNamePart_robotXml acc f
  simp only [processUploadFile, processFilePart]
  by_cases hx : strEndsWith f.path xmlExt = true
  · rw [if_pos hx]
    by_cases ho : strIncludes (jsToLower (lastSegment f.path)) objectStr = true
    · rw [if_pos ho]
      simpa [hn] using hf
    · rw [if_neg ho]
      by_cases hfn : strFalsy (processNamePart acc f).robotXml = true
      · rw [if_pos hfn]
        have hte : (f.text == emptyStr) = true := by
          simp only [isGoodRobotXml, isXmlFile, hx, Bool.true_and, Bool.and_eq_false_iff,
            Bool.not_eq_false'] at hg
          rcases hg with hg | hg
          · exact absurd hg (by simpa using ho)
          · simpa [bne] using hg
        simpa [strFalsy] using hte
      · exact absurd (by rw [hn]; exact hf) hfn
  · rw [if_neg hx]
    by_cases hm : (strIncludes f.path meshesSlashStr || strIncludes f.path meshSlashStr) = true
    · rw [if_pos hm]
      simpa [hn] using hf
    · rw [if_neg hm]
      simpa [hn] using hf

theorem processUploadFile_robotXml_stable (acc : UploadAcc) (f : UFile)
    (hf : strFalsy acc.robotXml = false) :
    (processUploadFile acc f).robotXml = acc.robotXml := by
  have hn := processNamePart_robotXml acc f
  simp only [processUploadFile, processFilePart]
  by_cases hx : strEndsWith f.path xmlExt = true
  · rw [if_pos hx]
    by_cases ho : strIncludes (jsToLower (lastSegment f.path)) objectStr = true
    · rw [if_pos ho]
      simpa using hn
    · rw [if_neg ho]
      have hfn : ¬ strFalsy (processNamePart acc f).robotXml = true := by
        rw [hn, hf]
        exact Bool.false_ne_true
      rw [if_neg hfn]
      exact hn
  · rw [if_neg hx]
    by_cases hm : (strIncludes f.path meshesSlashStr || strIncludes f.path meshSlashStr) = true
    · rw [if_pos hm]
      simpa using hn
    · rw [if_neg hm]
      exact hn

theorem processUploadFile_robotXml_good (acc : UploadAcc) (f : UFile)
    (hg : isGoodRobotXml f = true) (hf : strFalsy acc.robotXml = true) :
    (processUploadFile acc f).robotXml = some f.text := by
  have hn := processNamePart_robotXml acc f
  have hx : strEndsWith f.path xmlExt = true := by
    simp only [isGoodRobotXml, Bool.and_eq_true, isXmlFile] at hg
    exact hg.1.1
  have ho : ¬ strIncludes (jsToLower (lastSegment f.path)) objectStr = true := by
    simp only [isGoodRobotXml, Bool.and_eq_true, Bool.not_eq_true'] at hg
    rw [hg.1.2]
    exact Bool.false_ne_true
  simp only [processUploadFile, processFilePart]
  rw [if_pos hx, if_neg ho, if_pos (by rw [hn]; exact hf)]

theorem processUploadFile_objectsXml (acc : UploadAcc) (f : UFile) :
    (processUploadFile acc f).objectsXml =
      if isObjectXml f then some f.text else acc.objectsXml := by
  have hn := processNamePart_objectsXml acc f
  simp only [processUploadFile, processFilePart]
  by_cases hx : strEndsWith f.path xmlExt = true
  · rw [if_pos hx]
    by_cases ho : strIncludes (jsToLower (lastSegment f.path)) objectStr = true
    · have hobj : isObjectXml f = true := by
        simp only [isObjectXml, isXmlFile]
        rw [hx, ho]
        rfl
      rw [if_pos ho]
      simp [hobj]
    · have hobj : isObjectXml f = false := by
        simp only [isObjectXml, isXmlFile]
        rw [hx, (Bool.not_eq_true _).mp ho]
        rfl
      rw [if_neg ho]
      by_cases hfn : strFalsy (processNamePart acc f).robotXml = true
      · rw [if_pos hfn]
        simp [hobj, hn]
      · rw [if_neg hfn]
        simp [hobj, hn]
  · have hobj : isObjectXml f = false := by
      simp only [isObjectXml, isXmlFile]
      rw [(Bool.not_eq_true _).mp hx]
      rfl
    rw [if_neg hx]
    by_cases hm : (strIncludes f.path meshesSlashStr || strIncludes f.path meshSlashStr) = true
    · rw [if_pos hm]
      simp [hobj, hn]
    · rw [if_neg hm]
      simp [hobj, hn]

theorem uploadFold_robotXml_falsy :
    ∀ (files : List UFile) (acc : UploadAcc),
      files.find? isGoodRobotXml = none → strFalsy acc.robotXml = true →
      strFalsy ((files.foldl processUploadFile acc).robotXml) = true := by
  intro files
  induction files with
  | nil =>
    intro acc _ hf
    exact hf
  | cons f rest ih =>
    intro acc hfind hf
    have hgf : isGoodRobotXml f = false := by
      cases hg : isGoodRobotXml f
      · rfl
      · rw [List.find?_cons_of_pos _ hg] at hfind
        cases hfind
    have hrest : rest.find? isGoodRobotXml = none := by
      rwa [List.find?_cons_of_neg _ (by rw [hgf]; exact Bool.false_ne_true)] at hfind
    exact ih _ hrest (processUploadFile_robotXml_falsy acc f hgf hf)

theorem uploadFold_robotXml_stable :
    ∀ (files : List UFile) (acc : UploadAcc),
      strFalsy acc.robotXml = false →
      (files.foldl processUploadFile acc).robotXml = acc.robotXml := by
  intro files
  induction files with
  | nil =>
    intro acc _
    rfl
  | cons f rest ih =>
    intro acc hf
    have hstep := processUploadFile_robotXml_stable acc f hf
    rw [List.foldl_cons, ih _ (by rw [hstep]; exact hf), hstep]

theorem uploadFold_robotXml_found :
    ∀ (files : List UFile) (acc : UploadAcc) (f : UFile),
      files.find? isGoodRobotXml = some f → strFalsy acc.robotXml = true →
      (files.foldl processUploadFile acc).robotXml = some f.text := by
  intro files
  induction files with
  | nil =>
    intro acc f hfind
    cases hfind
  | cons g rest ih =>
    intro acc f hfind hf
    cases hg : isGoodRobotXml g
    · have hrest : rest.find? isGoodRobotXml = some f := by
        rwa [List.find?_cons_of_neg _ (by rw [hg]; exact Bool.false_ne_true)] at hfind
      exact ih _ f hrest (processUploadFile_robotXml_falsy acc g hg hf)
    · rw [List.find?_cons_of_pos _ hg] at hfind
      cases hfind
      have hstep := processUploadFile_robotXml_good acc g hg hf
      have hne : strFalsy (processUploadFile acc g).robotXml = false := by
        rw [hstep]
        have : (g.text == emptyStr) = false := by
          simp only [isGoodRobotXml, Bool.and_eq_true] at hg
          simpa [bne] using hg.2
        simpa [strFalsy] using this
      rw [List.foldl_cons, uploadFold_robotXml_stable rest _ hne, hstep]

theorem uploadFold_objectsXml :
    ∀ (files : List UFile) (acc : UploadAcc),
      (files.foldl processUploadFile acc).objectsXml =
        match lastObjectsText files with
        | some t => some t
        | none => acc.objectsXml := by
  intro files
  induction files with
  | nil =>
    intro acc
    rfl
  | cons f rest ih =>
    intro acc
    rw [List.foldl_cons, ih]
    simp only [lastObjectsText]
    cases hrest : lastObjectsText rest with
    | some t => rfl
    | none =>
      rw [processUploadFile_objectsXml]
      cases ho : isObjectXml f
      · simp [ho]
      · simp [ho]

/-- C5 (counterexample): a single uploaded non-object `.xml` with empty
content makes the load fail with the missing-definition error even though
the upload contains a non-object `.xml`; and with an empty first non-object
`.xml`, a later non-object `.xml` is not ignored — it becomes the robot
definition. -/
theorem empty_robot_xml_counterexample :
    strEndsWith fEmptyRobot.path xmlExt = true ∧
    strIncludes (jsToLower (lastSegment fEmptyRobot.path)) objectStr = false ∧
    loadUploadedRobot [fEmptyRobot] = Except.error errNoRobotXml ∧
    (∃ r, loadUploadedRobot [fEmptyRobot, fGood] = Except.ok r ∧
      r.robotXml = fGood.text ∧ fGood.text ≠ fEmptyRobot.text) := by
  exact ⟨by decide, by decide, rfl, ⟨_, rfl, rfl, by decide⟩⟩

/-- C5 (amended): an `.xml` file whose lowercased filename contains
`object` is routed to the objects definition regardless of encounter order
(the last one's content wins, captured by `lastObjectsText`); the first
non-object `.xml` with non-empty content becomes the robot definition and
all later non-object `.xml` files are then ignored; the load fails with the
missing-definition error if and only if the upload contains no non-object
`.xml` with non-empty content. -/
theorem loadUploadedRobot_spec (files : List UFile) :
    (loadUploadedRobot files = Except.error errNoRobotXml ↔
      files.find? isGoodRobotXml = none) ∧
    (∀ f, files.find? isGoodRobotXml = some f →
      ∃ r, loadUploadedRobot files = Except.ok r ∧ r.robotXml = f.text ∧
        r.objectsXml = lastObjectsText files) := by
  have hinit : strFalsy initUploadAcc.robotXml = true := rfl
  have hne : ∀ f, files.find? isGoodRobotXml = some f →
      strFalsy (uploadScan files).robotXml = false := by
    intro f hfind
    have hrx := uploadFold_robotXml_found files initUploadAcc f hfind hinit
    have hgood := List.find?_some hfind
    have hte : (f.text == emptyStr) = false := by
      simp only [isGoodRobotXml, Bool.and_eq_true] at hgood
      simpa [bne] using hgood.2
    show strFalsy (files.foldl processUploadFile initUploadAcc).robotXml = false
    rw [hrx]
    simpa [strFalsy] using hte
  constructor
  · constructor
    · intro herr
      cases hfind : files.find? isGoodRobotXml with
      | none => rfl
      | some f =>
        simp only [loadUploadedRobot] at herr
        rw [if_neg (by rw [hne f hfind]; exact Bool.false_ne_true)] at herr
        cases herr
    · intro hfind
      have hfal : strFalsy (uploadScan files).robotXml = true :=
        uploadFold_robotXml_falsy files initUploadAcc hfind hinit
      simp only [loadUploadedRobot]
      rw [if_pos hfal]
  · intro f hfind
    have hrx := uploadFold_robotXml_found files initUploadAcc f hfind hinit
    refine ⟨{ robotXml := (uploadScan files).robotXml.getD emptyStr,
              objectsXml := (uploadScan files).objectsXml,
              meshFiles := (uploadScan files).meshFiles,
              robotName := if strFalsy (uploadScan files).robotName = true then userRobotStr
                           else (uploadScan files).robotName.getD emptyStr }, ?_, ?_, ?_⟩
    · simp only [loadUploadedRobot]
      rw [if_neg (by rw [hne f hfind]; exact Bool.false_ne_true)]
    · show ((uploadScan files).robotXml.getD emptyStr) = f.text
      show ((files.foldl processUploadFile initUploadAcc).robotXml.getD emptyStr) = f.text
      rw [hrx]
      rfl
    · show (uploadScan files).objectsXml = lastObjectsText files
      show (files.foldl processUploadFile initUploadAcc).objectsXml = lastObjectsText files
      rw [uploadFold_objectsXml]
      cases lastObjectsText files <;> rfl

/-- C5 (witness): instantiation of `loadUploadedRobot_spec` on an upload
holding an objects file, an empty non-object `.xml`, and two good non-object
`.xml` files: the first good one wins. -/
theorem loadUploadedRobot_spec_witness :
    ∃ r, loadUploadedRobot [fObj, fEmptyRobot, fGood, fGood2] = Except.ok r ∧
      r.robotXml = fGood.text ∧
      r.objectsXml = lastObjectsText [fObj, fEmptyRobot, fGood, fGood2] :=
  (loadUploadedRobot_spec [fObj, fEmptyRobot, fGood, fGood2]).2 fGood (by decide)

/-! ## C7: mesh blob capture -/

theorem processUploadFile_meshFiles (acc : UploadAcc) (f : UFile) :
    (processUploadFile acc f).meshFiles =
      if isXmlFile f then acc.meshFiles
      else if (strIncludes f.path meshesSlashStr || strIncludes f.path meshSlashStr) = true then
        jsInsert acc.meshFiles (meshKey f.path) f.bytes
      else acc.meshFiles := by
  have hn := processNamePart_meshFiles acc f
  simp only [processUploadFile, processFilePart]
  by_cases hx : strEndsWith f.path xmlExt = true
  · have hxml : isXmlFile f = true := hx
    rw [if_pos hx, if_pos (show isXmlFile f = true from hxml)]
    by_cases ho : strIncludes (jsToLower (lastSegment f.path)) objectStr = true
    · rw [if_pos ho]
      simpa using hn
    · rw [if_neg ho]
      by_cases hfn : strFalsy (processNamePart acc f).robotXml = true
      · rw [if_pos hfn]
        simpa using hn
      · rw [if_neg hfn]
        exact hn
  · have hxml : isXmlFile f = false := (Bool.not_eq_true _).mp hx
    rw [if_neg hx]
    by_cases hm : (strIncludes f.path meshesSlashStr || strIncludes f.path meshSlashStr) = true
    · rw [if_pos hm]
      simp [hxml, hm, hn]
    · rw [if_neg hm]
      simp [hxml, hm, hn]

theorem lookup_jsInsert_isSome {α : Type} (l : List (String × α)) (k : String) (v : α)
    (b : String) (h : (l.lookup b).isSome = true) :
    ((jsInsert l k v).lookup b).isSome = true := by
  by_cases hb : b = k
  · rw [hb, lookup_jsInsert_self]
    rfl
  · rw [lookup_jsInsert_ne l k v b hb]
    exact h

theorem uploadFold_mesh_isSome_mono :
    ∀ (files : List UFile) (acc : UploadAcc) (key : String),
      ((acc.meshFiles.lookup key).isSome = true) →
      (((files.foldl processUploadFile acc).meshFiles.lookup key).isSome = true) := by
  intro files
  induction files with
  | nil =>
    intro acc key h
    exact h
  | cons g rest ih =>
    intro acc key h
    rw [List.foldl_cons]
    apply ih
    rw [processUploadFile_meshFiles]
    split
    · exact h
    · split
      · exact lookup_jsInsert_isSome _ _ _ _ h
      · exact h

theorem uploadFold_mesh_isSome :
    ∀ (files : List UFile) (acc : UploadAcc) (f : UFile),
      f ∈ files → isXmlFile f = false →
      (strIncludes f.path meshesSlashStr || strIncludes f.path meshSlashStr) = true →
      (((files.foldl processUploadFile acc).meshFiles.lookup (meshKey f.path)).isSome = true) := by
  intro files
  induction files with
  | nil =>
    intro acc f hf
    cases hf
  | cons g rest ih =>
    intro acc f hf hx hm
    rcases List.mem_cons.mp hf with rfl | hf'
    · rw [List.foldl_cons]
      apply uploadFold_mesh_isSome_mono
      rw [processUploadFile_meshFiles, if_neg (by rw [hx]; exact Bool.false_ne_true),
        if_pos hm, lookup_jsInsert_self]
      rfl
    · exact ih _ f hf' hx hm

theorem uploadFold_mesh_value_inv :
    ∀ (files : List UFile) (acc : UploadAcc) (key : String) (bs : List ℕ),
      (∀ g ∈ files, isXmlFile g = false →
        (strIncludes g.path meshesSlashStr || strIncludes g.path meshSlashStr) = true →
        meshKey g.path = key → g.bytes = bs) →
      acc.meshFiles.lookup key = some bs →
      (files.foldl processUploadFile acc).meshFiles.lookup key = some bs := by
  intro files
  induction files with
  | nil =>
    intro acc key bs _ h
    exact h
  | cons g rest ih =>
    intro acc key bs hall h
    rw [List.foldl_cons]
    apply ih _ _ _ (fun p hp => hall p (List.mem_cons_of_mem _ hp))
    rw [processUploadFile_meshFiles]
    split
    · exact h
    · split
      · by_cases hkey : meshKey g.path = key
        · have hbytes : g.bytes = bs := by
            apply hall g (List.mem_cons_self _ _) _ (by assumption) hkey
            next hxml _ => exact (Bool.not_eq_true _).mp hxml
          rw [hkey, hbytes, lookup_jsInsert_self]
        · rw [lookup_jsInsert_ne _ _ _ _ (fun hh => hkey hh.symm)]
          exact h
      · exact h

theorem uploadFold_mesh_value :
    ∀ (files : List UFile) (acc : UploadAcc) (f : UFile),
      f ∈ files → isXmlFile f = false →
      (strIncludes f.path meshesSlashStr || strIncludes f.path meshSlashStr) = true →
      (∀ g ∈ files, isXmlFile g = false →
        (strIncludes g.path meshesSlashStr || strIncludes g.path meshSlashStr) = true →
        meshKey g.path = meshKey f.path → g.bytes = f.bytes) →
      (acc.meshFiles.lookup (meshKey f.path) = none ∨
        acc.meshFiles.lookup (meshKey f.path) = some f.bytes) →
      (files.foldl processUploadFile acc).meshFiles.lookup (meshKey f.path) = some f.bytes := by
  intro files
  induction files with
  | nil =>
    intro acc f hf
    cases hf
  | cons g rest ih =>
    intro acc f hf hx hm hall hinv
    rcases List.mem_cons.mp hf with rfl | hf'
    · rw [List.foldl_cons]
      apply uploadFold_mesh_value_inv rest _ _ _
        (fun p hp => hall p (List.mem_cons_of_mem _ hp))
      rw [processUploadFile_meshFiles, if_neg (by rw [hx]; exact Bool.false_ne_true),
        if_pos hm, lookup_jsInsert_self]
    · rw [List.foldl_cons]
      apply ih _ f hf' hx hm (fun p hp => hall p (List.mem_cons_of_mem _ hp))
      rw [processUploadFile_meshFiles]
      split
      · exact hinv
      · split
        · by_cases hkey : meshKey g.path = meshKey f.path
          · have hbytes : g.bytes = f.bytes := by
              apply hall g (List.mem_cons_self _ _) _ (by assumption) hkey
              next hxml _ => exact (Bool.not_eq_true _).mp hxml
            right
            rw [← hkey, lookup_jsInsert_self, hbytes]
          · rw [lookup_jsInsert_ne _ _ _ _ (fun hh => hkey hh.symm)]
            exact hinv
        · exact hinv

/-- C7 (counterexample): an `.xml` file inside `meshes/` is handled by the
`.xml` branch and never captured as a mesh blob, so a successful load of an
upload containing one returns an empty mesh map; and a file under `mesh/`
(without `es`) is captured but keyed by its full path, because the split
regex `meshes?\/` does not match `mesh/`. -/
theorem mesh_xml_not_captured :
    strIncludes fMeshXml.path meshesSlashStr = true ∧
    (∃ r, loadUploadedRobot [fGood, fMeshXml] = Except.ok r ∧ r.meshFiles = []) ∧
    strIncludes fMeshDir.path meshSlashStr = true ∧
    (∃ r, loadUploadedRobot [fGood, fMeshDir] = Except.ok r ∧
      r.meshFiles = [(fMeshDir.path, fMeshDir.bytes)]) := by
  exact ⟨by decide, ⟨_, rfl, rfl⟩, by decide, ⟨_, rfl, by decide⟩⟩

/-- C7 (amended): every uploaded file that does NOT end in `.xml` and whose
path contains the substring `meshes/` or `mesh/` is captured as a binary
blob keyed by `path.split(/meshes?\/).pop()` — the portion after the last
`meshes/` (or `meshe/`) match, or the whole path if that regex never matches
(as for `mesh/`); the blob holds the bytes of the last such file with that
key, and a successful load returns exactly the captured map. -/
theorem upload_mesh_capture (files : List UFile) (f : UFile)
    (hf : f ∈ files) (hx : isXmlFile f = false)
    (hm : (strIncludes f.path meshesSlashStr || strIncludes f.path meshSlashStr) = true) :
    (((uploadScan files).meshFiles.lookup (meshKey f.path)).isSome = true) ∧
    ((∀ g ∈ files, isXmlFile g = false →
        (strIncludes g.path meshesSlashStr || strIncludes g.path meshSlashStr) = true →
        meshKey g.path = meshKey f.path → g.bytes = f.bytes) →
      (uploadScan files).meshFiles.lookup (meshKey f.path) = some f.bytes) ∧
    (∀ r, loadUploadedRobot files = Except.ok r →
      r.meshFiles = (uploadScan files).meshFiles) := by
  refine ⟨uploadFold_mesh_isSome files initUploadAcc f hf hx hm, ?_, ?_⟩
  · intro hall
    exact uploadFold_mesh_value files initUploadAcc f hf hx hm hall (Or.inl rfl)
  · intro r hr
    simp only [loadUploadedRobot] at hr
    split at hr
    · cases hr
    · cases hr
      rfl

/-- C7 (witness): instantiation of `upload_mesh_capture` on an upload with a
robot definition and one binary mesh file under `meshes/`. -/
theorem upload_mesh_capture_witness :
    (((uploadScan [fGood, fMeshStl]).meshFiles.lookup (meshKey fMeshStl.path)).isSome = true) ∧
    ((∀ g ∈ [fGood, fMeshStl], isXmlFile g = false →
        (strIncludes g.path meshesSlashStr || strIncludes g.path meshSlashStr) = true →
        meshKey g.path = meshKey fMeshStl.path → g.bytes = fMeshStl.bytes) →
      (uploadScan [fGood, fMeshStl]).meshFiles.lookup (meshKey fMeshStl.path) =
        some fMeshStl.bytes) ∧
    (∀ r, loadUploadedRobot [fGood, fMeshStl] = Except.ok r →
      r.meshFiles = (uploadScan [fGood, fMeshStl]).meshFiles) :=
  upload_mesh_capture [fGood, fMeshStl] fMeshStl (by decide) (by decide) (by decide)
